import Mathlib

/-!
Verification development for the UC_STV election-tabulation backend.

The definitions below are a shallow embedding of the Python sources:
  * `backend/ElectionQuotas.py`  (classes `HareQuota`, `DroopQuota`),
  * `backend/ElectionRace.py`    (class `ElectionRace`).

Conventions of the embedding:
  * Python `int` becomes `Int` (or `Nat` where the source value is a length).
  * Python float arithmetic on ballot weights is modelled by exact rational
    arithmetic on `ℚ`; the specification itself states that ballot values are
    rationals in principle and endorses a rational re-implementation.
  * Python `int(x)` (truncation toward zero) becomes `Int.tdiv` applied to an
    exact integer fraction.
  * A method that can raise becomes a function into `Except PyError` or a
    function returning a `(state, Option PyError)` pair when the partial
    mutations before the raise must be kept, as Python keeps them.
  * Classes not present in the repository sources (`ElectionRaceRound`,
    `ElectionCandidateState`, voters and ballots) are modelled from the
    specification; each such definition carries a doc comment saying so.
-/

attribute [local semireducible] Rat.add Rat.sub Rat.mul Rat.inv

/-- The error kinds that the modelled Python code can raise.

`electionRaceErrorPhase` and `electionRaceErrorDuplicate` are the
`ElectionRaceError`s raised by `add_voter` / `add_candidate`;
`electionRaceErrorTie` is the `ElectionRaceError` raised by the tie-resolution
loop of `ElectionRace.run` ("Unable to resolve tie in round winners,
candidates tied the entire race."); `indexOutOfRange` is a Python
`IndexError`; `zeroDivision` is a Python `ZeroDivisionError`. -/
inductive PyError where
  | electionRaceErrorPhase
  | electionRaceErrorDuplicate
  | electionRaceErrorTie
  | indexOutOfRange
  | zeroDivision
  deriving DecidableEq, Repr

/-- `HareQuota.get_quota` from `backend/ElectionQuotas.py`:
`return_value = int(self._voters / self._max_winners)` followed by
`return return_value if return_value > 0 else 1`.

Python's `int(a / b)` truncates the exact quotient toward zero, which is
`Int.tdiv a b`; with `max_winners = 0` Python raises `ZeroDivisionError`. -/
def HareQuota.get_quota (voters max_winners : Int) : Except PyError Int :=
  if max_winners = 0 then .error .zeroDivision
  else .ok (if Int.tdiv voters max_winners > 0 then Int.tdiv voters max_winners else 1)

/-- The local variable `return_value` of `DroopQuota.get_quota` in
`backend/ElectionQuotas.py`: `0`, reassigned to
`int((voters / (max_winners + 1)) + 1)` when `max_winners > 1` and to
`int((voters + 1) / 2)` when `max_winners == 1`.

Since `voters / (max_winners + 1) + 1 = (voters + max_winners + 1) /
(max_winners + 1)` exactly, Python's `int(...)` (truncation toward zero) of it
is `Int.tdiv (voters + (max_winners + 1)) (max_winners + 1)`. -/
def DroopQuota.return_value (voters max_winners : Int) : Int :=
  if max_winners > 1 then Int.tdiv (voters + (max_winners + 1)) (max_winners + 1)
  else if max_winners = 1 then Int.tdiv (voters + 1) 2
  else 0

/-- `DroopQuota.get_quota` from `backend/ElectionQuotas.py`:
`return return_value if return_value > 0 else 1`.  No branch divides by zero,
so this method never raises. -/
def DroopQuota.get_quota (voters max_winners : Int) : Except PyError Int :=
  .ok (if DroopQuota.return_value voters max_winners > 0
       then DroopQuota.return_value voters max_winners else 1)

/-- Truncated division of a nonnegative dividend by a positive divisor is
ordinary `Int` (Euclidean) division, hence the `Nat` floor quotient. -/
theorem tdiv_natCast (a b : Nat) : Int.tdiv (a : Int) (b : Int) = ((a / b : Nat) : Int) := by
  rw [Int.tdiv_eq_ediv (by positivity) (by positivity)]
  exact (Int.ofNat_ediv a b).symm

/-- A quotient truncated toward zero is nonpositive whenever the dividend is
less than the positive divisor. -/
theorem tdiv_nonpos_of_lt (a b : Int) (hb : 0 < b) (hab : a < b) : Int.tdiv a b ≤ 0 := by
  rcases le_or_lt 0 a with ha | ha
  · rw [Int.tdiv_eq_ediv ha (le_of_lt hb)]
    rw [Int.ediv_eq_zero_of_lt ha hab]
  · have h1 : Int.tdiv (-a) b ≥ 0 := Int.tdiv_nonneg (by omega) (le_of_lt hb)
    have h2 : Int.tdiv (-a) b = -Int.tdiv a b := Int.neg_tdiv a b
    omega

/-- The positive-or-one guard applied to a positive integer is the maximum
with 1, stated through a `Nat` value. -/
theorem pos_guard_eq_max (k : Nat) (hk : 1 ≤ k) :
    (if ((k : Int) > 0) then (k : Int) else 1) = ((max 1 k : Nat) : Int) := by
  rw [if_pos (by exact_mod_cast hk), Nat.max_eq_right hk]

/-- C6: for all voters ≥ 1 and max_winners ≥ 1, `DroopQuota.get_quota` returns
⌊voters / (max_winners + 1)⌋ + 1 when max_winners > 1 and ⌊(voters + 1) / 2⌋
when max_winners = 1, with the result floored to at least 1 (the floors being
realised by `Nat` division). -/
theorem droop_quota_formula (voters max_winners : Int)
    (hv : 1 ≤ voters) (hm : 1 ≤ max_winners) :
    DroopQuota.get_quota voters max_winners =
      .ok ((max 1 (if 1 < max_winners then voters.toNat / (max_winners.toNat + 1) + 1
                   else (voters.toNat + 1) / 2) : Nat) : Int) := by
  unfold DroopQuota.get_quota
  rcases lt_or_eq_of_le hm with h1 | h1
  · have key : DroopQuota.return_value voters max_winners
        = ((voters.toNat / (max_winners.toNat + 1) + 1 : Nat) : Int) := by
      unfold DroopQuota.return_value
      rw [if_pos h1,
        show voters + (max_winners + 1) = (((voters.toNat + (max_winners.toNat + 1)) : Nat) : Int) by omega,
        show max_winners + 1 = ((max_winners.toNat + 1 : Nat) : Int) by omega,
        tdiv_natCast, Nat.add_div_right _ (by omega)]
    rw [key, pos_guard_eq_max _ (Nat.le_add_left 1 _), if_pos h1]
  · have key : DroopQuota.return_value voters max_winners
        = (((voters.toNat + 1) / 2 : Nat) : Int) := by
      unfold DroopQuota.return_value
      rw [if_neg (by omega), if_pos h1.symm,
        show voters + 1 = (((voters.toNat + 1) : Nat) : Int) by omega,
        show (2 : Int) = ((2 : Nat) : Int) by rfl, tdiv_natCast]
    have hk : 1 ≤ (voters.toNat + 1) / 2 := by
      have h2 : 2 ≤ voters.toNat + 1 := by omega
      exact Nat.one_le_div_iff (by omega) |>.mpr h2
    rw [key, pos_guard_eq_max _ hk, if_neg (by omega)]

/-- Witness for C6 at voters = 5, max_winners = 2 (Droop quota 5/3 + 1 = 2). -/
theorem droop_quota_formula_witness :
    (1 ≤ (5 : Int)) ∧ (1 ≤ (2 : Int)) ∧ DroopQuota.get_quota 5 2 = .ok 2 := by
  refine ⟨by decide, by decide, ?_⟩
  rw [droop_quota_formula 5 2 (by decide) (by decide)]
  congr 1

/-- C7 counterexample: computing the quota with voters < 0 or max_winners < 1
does not raise; Droop at (−1, 2) and Hare at (−3, 1) both return the
integer 1. -/
theorem quota_invalid_input_cex :
    DroopQuota.get_quota (-1) 2 = .ok 1 ∧ HareQuota.get_quota (-3) 1 = .ok 1 :=
  ⟨rfl, rfl⟩

/-- C7 amended: invalid quota inputs (voters < 0 or max_winners < 1) are not
validated.  `DroopQuota.get_quota` returns the integer 1 on every such input;
`HareQuota.get_quota` raises only when max_winners = 0 (a `ZeroDivisionError`,
not a dedicated validation error) and returns an integer otherwise. -/
theorem quota_invalid_input_behavior (voters max_winners : Int)
    (h : voters < 0 ∨ max_winners < 1) :
    DroopQuota.get_quota voters max_winners = .ok 1 ∧
    (max_winners = 0 → HareQuota.get_quota voters max_winners = .error .zeroDivision) ∧
    (max_winners ≠ 0 → ∃ n : Int, HareQuota.get_quota voters max_winners = .ok n) := by
  refine ⟨?_, ?_, ?_⟩
  · have hle : DroopQuota.return_value voters max_winners ≤ 0 := by
      unfold DroopQuota.return_value
      rcases lt_or_le 1 max_winners with h1 | h1
      · rw [if_pos h1]
        exact tdiv_nonpos_of_lt _ _ (by omega) (by omega)
      · rcases eq_or_lt_of_le h1 with h2 | h2
        · rw [if_neg (by omega), if_pos h2]
          exact tdiv_nonpos_of_lt _ _ (by omega) (by omega)
        · rw [if_neg (by omega), if_neg (by omega)]
    unfold DroopQuota.get_quota
    rw [if_neg (by omega)]
  · intro h0
    unfold HareQuota.get_quota
    rw [if_pos h0]
  · intro h0
    unfold HareQuota.get_quota
    rw [if_neg h0]
    exact ⟨_, rfl⟩

/-- Witness for the amended C7 at voters = −1, max_winners = 2. -/
theorem quota_invalid_input_behavior_witness :
    ((-1 : Int) < 0 ∨ (2 : Int) < 1) ∧ DroopQuota.get_quota (-1) 2 = .ok 1 :=
  ⟨Or.inl (by decide), (quota_invalid_input_behavior (-1) 2 (Or.inl (by decide))).1⟩

/-- An election candidate: stable string id, display name and party.
`ElectionCandidate` itself is not under the repository sources; the
specification describes it as an immutable (id, name, party) record, and
`ElectionRace` compares candidates by object equality, modelled here as
structural equality. -/
structure Cand where
  cid : String
  name : String
  party : String
  deriving DecidableEq, Repr

/-- Modelled from the spec: `ElectionCandidateState` is a tagged variant
RUNNING | WON | ELIMINATED paired with a back-reference to the round in which
the state was assigned (modelled, as the specification's design notes suggest,
by the round number). -/
inductive CandStateKind where
  | RUNNING
  | WON
  | ELIMINATED
  deriving DecidableEq, Repr

/-- Modelled from the spec: an `ElectionCandidateState` value; `round` is the
number of the round passed to the constructor. -/
structure ElectionCandidateState where
  round : Nat
  state : CandStateKind
  deriving DecidableEq, Repr

/-- Modelled from the spec: a ballot carries its voter (by id), its numeric
value, and its ranked preference list (restricted, when the ballot is built,
to the candidates that were RUNNING at that moment). -/
structure Ballot where
  voter : Nat
  value : ℚ
  preferences : List Cand
  deriving DecidableEq, Repr

/-- Modelled from the spec: the round completion flag of
`ElectionRaceRound`. -/
inductive RoundState where
  | INCOMPLETE
  | COMPLETE
  deriving DecidableEq, Repr

/-- Modelled from the spec: `ElectionRaceRound` (the class is not under the
repository sources).  It stores, in insertion order, the pre-state and
post-state of every candidate, the ballots together with the bucket (a
candidate, or `none` for the exhausted bucket) each was classified into, and
the completion flag.  The score cache is not modelled; scores are recomputed
on demand, which the specification describes as observably equivalent. -/
structure ElectionRaceRound where
  number : Nat
  pre_state : List (Cand × ElectionCandidateState)
  post_state : List (Cand × ElectionCandidateState)
  ballots : List (Option Cand × Ballot)
  state : RoundState
  deriving DecidableEq, Repr

namespace ElectionRaceRound

/-- A fresh round with the given number and no candidates or ballots. -/
def empty (number : Nat) : ElectionRaceRound :=
  { number := number, pre_state := [], post_state := [], ballots := [], state := .INCOMPLETE }

/-- Modelled from the spec: `add_candidate(c, pre_state)` installs the given
pre-state and initialises the post-state equal to it. -/
def add_candidate (rd : ElectionRaceRound) (c : Cand) (st : ElectionCandidateState) :
    ElectionRaceRound :=
  { rd with pre_state := rd.pre_state ++ [(c, st)],
            post_state := rd.post_state ++ [(c, st)] }

/-- Look up the state recorded for a candidate in a state association list. -/
def lookupState (l : List (Cand × ElectionCandidateState)) (c : Cand) :
    Option ElectionCandidateState :=
  (l.find? (fun p => p.1 = c)).map Prod.snd

/-- Modelled from the spec: `get_candidate_state(c)` returns the candidate's
current (post-) state. -/
def get_candidate_state (rd : ElectionRaceRound) (c : Cand) : ElectionCandidateState :=
  (lookupState rd.post_state c).getD ⟨0, .RUNNING⟩

/-- Modelled from the spec: `set_candidate_state(c, new_state)` updates the
candidate's post-state (dictionary assignment; every entry for `c` is
replaced). -/
def set_candidate_state (rd : ElectionRaceRound) (c : Cand) (st : ElectionCandidateState) :
    ElectionRaceRound :=
  { rd with post_state := rd.post_state.map (fun p => if p.1 = c then (c, st) else p) }

/-- The candidates of the round, in insertion order (the iteration order of
the round's dictionaries). -/
def candidates (rd : ElectionRaceRound) : List Cand :=
  rd.pre_state.map Prod.fst

/-- The candidates whose recorded state in `l` is RUNNING, in insertion
order: one group of `get_candidates_by_state`. -/
def runningOf (l : List (Cand × ElectionCandidateState)) : List Cand :=
  (l.filter (fun p => p.2.state = .RUNNING)).map Prod.fst

/-- Modelled from the spec: the RUNNING group of
`get_candidates_by_state(CANDIDATE_PRE_STATE)`. -/
def running_pre (rd : ElectionRaceRound) : List Cand := runningOf rd.pre_state

/-- Modelled from the spec: the RUNNING group of `get_candidates_by_state()`
(the default, post-state, grouping). -/
def running_post (rd : ElectionRaceRound) : List Cand := runningOf rd.post_state

/-- Modelled from the spec: `get_candidates_changed()` returns the candidates
whose pre- and post-states differ, in insertion order. -/
def get_candidates_changed (rd : ElectionRaceRound) : List Cand :=
  (rd.pre_state.filter
    (fun p => ¬ lookupState rd.post_state p.1 = some p.2)).map Prod.fst

/-- Modelled from the spec: `add_ballot(b)` classifies the ballot by its
first preference that is RUNNING (pre-state of this round) and appends it to
that candidate's bucket, or to the exhausted (`none`) bucket if no preference
is RUNNING. -/
def add_ballot (rd : ElectionRaceRound) (b : Ballot) : ElectionRaceRound :=
  { rd with ballots :=
      rd.ballots ++ [(b.preferences.find? (fun c => c ∈ rd.running_pre), b)] }

/-- Modelled from the spec: `get_candidate_ballots(c)` returns the ballots of
bucket `c` (with `none` the exhausted bucket), in insertion order. -/
def get_candidate_ballots (rd : ElectionRaceRound) (c : Option Cand) : List Ballot :=
  (rd.ballots.filter (fun p => p.1 = c)).map Prod.snd

/-- Modelled from the spec: `get_candidate_voters(c)` returns the voters
behind `get_candidate_ballots(c)`. -/
def get_candidate_voters (rd : ElectionRaceRound) (c : Cand) : List Nat :=
  (rd.get_candidate_ballots (some c)).map Ballot.voter

/-- Modelled from the spec: `get_candidate_score(c)` is the sum of the ballot
values in `c`'s bucket. -/
def get_candidate_score (rd : ElectionRaceRound) (c : Cand) : ℚ :=
  ((rd.get_candidate_ballots (some c)).map Ballot.value).foldl (· + ·) 0

/-- Modelled from the spec: `complete()` marks the round COMPLETE
(idempotent). -/
def complete (rd : ElectionRaceRound) : ElectionRaceRound :=
  { rd with state := .COMPLETE }

end ElectionRaceRound

/-- The quota algorithm selector of the race configuration. -/
inductive QuotaAlg where
  | droop
  | hare
  deriving DecidableEq, Repr

/-- The race state constants `(ADDING, TABULATING, COMPLETE) = range(3)` of
`ElectionRace`. -/
inductive RaceState where
  | ADDING
  | TABULATING
  | COMPLETE
  deriving DecidableEq, Repr

/-- Modelled from the spec: the per-race data a voter object carries — the
ranked preference list for the race and the current per-race transfer value
(default 1). -/
structure VoterData where
  prefs : List Cand
  value : ℚ
  deriving DecidableEq, Repr

/-- The state of an `ElectionRace` from `backend/ElectionRace.py`.  Voters are
identified by `Nat` ids; `voter_data` is the per-race view of the voter
objects (their preference lists and current transfer values), owned by the
race as the specification's concurrency section states.  `candidate_id` is
the `_candidate_id` dictionary, as an association list whose most recent
binding comes first. -/
structure ElectionRace where
  max_winners : Nat
  quota_algorithm : QuotaAlg
  candidates : List Cand
  candidate_id : List (String × Cand)
  voters : List Nat
  voter_data : List (Nat × VoterData)
  rounds : List ElectionRaceRound
  winners : List Cand
  transfer_voters : List Nat
  state : RaceState
  deriving DecidableEq, Repr

instance : Inhabited Cand := ⟨⟨"", "", ""⟩⟩

namespace ElectionRace

/-- A freshly constructed race (`ElectionRace.__init__`): empty rosters, state
ADDING. -/
def init (max_winners : Nat) (alg : QuotaAlg) : ElectionRace :=
  { max_winners := max_winners, quota_algorithm := alg, candidates := [],
    candidate_id := [], voters := [], voter_data := [], rounds := [],
    winners := [], transfer_voters := [], state := .ADDING }

/-- `ElectionRace.add_voter`: raises `ElectionRaceError` outside the ADDING
phase, silently ignores voters already added, otherwise records the voter. -/
def add_voter (r : ElectionRace) (v : Nat) (prefs : List Cand) :
    ElectionRace × Option PyError :=
  if r.state ≠ .ADDING then (r, some .electionRaceErrorPhase)
  else if v ∈ r.voters then (r, none)
  else ({ r with voters := r.voters ++ [v],
                 voter_data := r.voter_data ++ [(v, ⟨prefs, 1⟩)] }, none)

/-- `ElectionRace.add_candidate`: raises `ElectionRaceError` outside the
ADDING phase or when the candidate is already part of the race; otherwise
registers the candidate in `_candidate_id` and appends it to the roster. -/
def add_candidate (r : ElectionRace) (c : Cand) : ElectionRace × Option PyError :=
  if r.state ≠ .ADDING then (r, some .electionRaceErrorPhase)
  else if c ∈ r.candidates then (r, some .electionRaceErrorDuplicate)
  else ({ r with candidate_id := (c.cid, c) :: r.candidate_id,
                 candidates := r.candidates ++ [c] }, none)

/-- `ElectionRace.get_candidate`: `None` when the id is not a key of
`_candidate_id`, otherwise the dictionary entry (the most recently registered
candidate with that id). -/
def get_candidate (r : ElectionRace) (q : String) : Option Cand :=
  (r.candidate_id.find? (fun p => p.1 = q)).map Prod.snd

/-- `ElectionRace.quota`: dispatches on the configured algorithm with
`len(self._voters)` and `self._max_winners`.  Both providers return `.ok` for
`max_winners ≥ 1`; for `max_winners = 0` the Hare provider would raise a
`ZeroDivisionError` in Python, a case the theorems below exclude by
hypothesis — the `getD 1` default is never reached there. -/
def quota (r : ElectionRace) : Nat :=
  ((match r.quota_algorithm with
    | .droop => DroopQuota.get_quota r.voters.length r.max_winners
    | .hare => HareQuota.get_quota r.voters.length r.max_winners).toOption.getD 1).toNat

/-- Replace the latest round by its updated value (Python mutates the round
object in place, so the list always holds the current round state). -/
def updLast (r : ElectionRace) (cur : ElectionRaceRound) : ElectionRace :=
  { r with rounds := r.rounds.dropLast ++ [cur] }

end ElectionRace

/-- Modelled from the spec: `get_race_voter_ballot` — the voter hands back a
ballot whose preferences are restricted to the currently-RUNNING candidates
handed to it and whose value is the voter's current per-race transfer
value. -/
def voter_cast_ballot (v : Nat) (vd : VoterData) (running : List Cand) : Ballot :=
  ⟨v, vd.value, vd.prefs.filter (fun c => c ∈ running)⟩

/-- The per-race data of voter `v` (the voter object itself in Python; a
fresh voter defaults to transfer value 1). -/
def lookupVoter (store : List (Nat × VoterData)) (v : Nat) : VoterData :=
  ((store.find? (fun p => p.1 = v)).map Prod.snd).getD ⟨[], 1⟩

/-- Modelled from the spec: `set_race_voter_value` — overwrite voter `v`'s
current per-race transfer value. -/
def setVoterValue (store : List (Nat × VoterData)) (v : Nat) (q : ℚ) :
    List (Nat × VoterData) :=
  if store.any (fun p => p.1 = v)
  then store.map (fun p => if p.1 = v then (v, ⟨p.2.prefs, q⟩) else p)
  else store ++ [(v, ⟨[], q⟩)]

namespace ElectionRace

/-- The helper `create_new_round` of `ElectionRace.run`: build round R+1,
installing every candidate's current (post-) state of round R as its pre-state,
then migrate the ballots of candidates that did not change state in R and the
exhausted-bucket ballots.  Python iterates `set(candidates) - set(changed)`
whose order is unspecified; the model iterates the candidate roster in order,
one representative of the allowed behaviours. -/
def create_new_round (r : ElectionRace) (cur : ElectionRaceRound) : ElectionRace :=
  let changed := cur.get_candidates_changed
  let nr0 := r.candidates.foldl
    (fun rd c => rd.add_candidate c (cur.get_candidate_state c))
    (ElectionRaceRound.empty (cur.number + 1))
  let nr1 := (r.candidates.filter (fun c => c ∉ changed)).foldl
    (fun rd c => (cur.get_candidate_ballots (some c)).foldl ElectionRaceRound.add_ballot rd)
    nr0
  let nr2 := (cur.get_candidate_ballots none).foldl ElectionRaceRound.add_ballot nr1
  { r with rounds := r.rounds ++ [nr2] }

/-- Removing the last element of the descending sort of `lowest` from
`lowest` shortens it: the element is a member, by permutation. -/
theorem length_erase_sorted_last (pscores : Cand → ℚ) (lowest : List Cand)
    (h2 : ¬ (List.insertionSort (fun a b => pscores b ≤ pscores a) lowest).length < 2) :
    (lowest.erase ((List.insertionSort (fun a b => pscores b ≤ pscores a) lowest).get
        ⟨(List.insertionSort (fun a b => pscores b ≤ pscores a) lowest).length - 1,
         by omega⟩)).length < lowest.length := by
  have ha : (List.insertionSort (fun a b => pscores b ≤ pscores a) lowest).get
      ⟨(List.insertionSort (fun a b => pscores b ≤ pscores a) lowest).length - 1, by omega⟩
      ∈ lowest :=
    (List.perm_insertionSort _ lowest).subset (List.get_mem _ _ _)
  have h3 := List.length_erase_of_mem ha
  have h4 : 0 < lowest.length := List.length_pos.mpr (List.ne_nil_of_mem ha)
  omega

/-- One step of the inner tie-resolution loop of `ElectionRace.run`
(lines 373–387): sort the tied `lowest` candidates by their score in the
previous round; if the two lowest differ, remove the lowest from both lists,
otherwise move to the round before (`rest` holds the rounds strictly before
`prev`), raising the tie `ElectionRaceError` when none is left.  Python's
`previous_round_lowest_winners[-2]` raises `IndexError` when fewer than two
tied candidates remain. -/
def tie_resolution_inner (mrw : Int) (prev : ElectionRaceRound)
    (rest : List ElectionRaceRound) (lowest crw : List Cand) :
    Except PyError (List Cand) :=
  if (crw.length : Int) ≤ mrw then .ok crw
  else
    let pscores := prev.get_candidate_score
    let pl := List.insertionSort (fun a b => pscores b ≤ pscores a) lowest
    if h2 : pl.length < 2 then .error .indexOutOfRange
    else
      let a := pl.get ⟨pl.length - 1, by omega⟩
      let b := pl.get ⟨pl.length - 2, by omega⟩
      if pscores a ≠ pscores b then
        tie_resolution_inner mrw prev rest (lowest.erase a) (crw.erase a)
      else
        if hr : rest = [] then .error .electionRaceErrorTie
        else tie_resolution_inner mrw (rest.getLast hr) rest.dropLast lowest crw
  termination_by (lowest.length, rest.length)
  decreasing_by
  · exact Prod.Lex.left _ _ (length_erase_sorted_last prev.get_candidate_score lowest h2)
  · have h4 : 0 < rest.length := List.length_pos.mpr hr
    have h5 : rest.dropLast.length = rest.length - 1 := List.length_dropLast rest
    exact Prod.Lex.right _ (by omega)

/-- The outer tie-resolution loop of `ElectionRace.run` (lines 345–387):
while the round winners exceed the available spots, drop the last winner when
its score differs from the one before it, otherwise collect the tail tied at
the lowest score and resolve through previous rounds (`prior` holds the
rounds strictly before the current round).  `crw[-1]` / `crw[-2]` raise
`IndexError` when fewer than two winners remain. -/
def tie_resolution (mrw : Int) (scores : Cand → ℚ) (prior : List ElectionRaceRound)
    (crw : List Cand) : Except PyError (List Cand) :=
  if (crw.length : Int) ≤ mrw then .ok crw
  else if h2 : crw.length < 2 then .error .indexOutOfRange
  else
    let a := crw.get ⟨crw.length - 1, by omega⟩
    let b := crw.get ⟨crw.length - 2, by omega⟩
    if scores a ≠ scores b then tie_resolution mrw scores prior crw.dropLast
    else
      let lowest := crw.filter (fun c => scores c = scores a)
      if hp : prior = [] then .error .electionRaceErrorTie
      else tie_resolution_inner mrw (prior.getLast hp) prior.dropLast lowest crw
  termination_by crw.length
  decreasing_by
  · rw [List.length_dropLast]
    omega

/-- The body of the winner-commit loop of `ElectionRace.run` (lines 389–414):
mark the candidate WON in the round, compute the surplus and the transfer
value — `(s − q)/s` when the surplus is positive, otherwise `1` — write each
bucket ballot's voter's new per-race transfer value `b.value() ×
transfer_value`, enqueue the bucket voters, and append the candidate to the
race winners. -/
def commit_winner (q : ℚ) (scores : Cand → ℚ)
    (rc : ElectionRace × ElectionRaceRound) (c : Cand) :
    ElectionRace × ElectionRaceRound :=
  let cur := rc.2.set_candidate_state c ⟨rc.2.number, .WON⟩
  let candidate_voters := cur.get_candidate_voters c
  let candidate_ballots := cur.get_candidate_ballots (some c)
  let candidate_score := scores c
  let surplus := candidate_score - q
  let transfer_value : ℚ := if surplus > 0 then surplus / candidate_score else 1
  ({ rc.1 with
      voter_data := candidate_ballots.foldl
        (fun vd b => setVoterValue vd b.voter (b.value * transfer_value)) rc.1.voter_data,
      transfer_voters := rc.1.transfer_voters ++ candidate_voters,
      winners := rc.1.winners ++ [c] }, cur)

/-- One step of the elimination loop of `ElectionRace.run` (lines 464–470):
mark the candidate ELIMINATED in the round and enqueue the voters of its
bucket. -/
def eliminate_step (rc : ElectionRace × ElectionRaceRound) (c : Cand) :
    ElectionRace × ElectionRaceRound :=
  let cur := rc.2.set_candidate_state c ⟨rc.2.number, .ELIMINATED⟩
  ({ rc.1 with transfer_voters := rc.1.transfer_voters ++ cur.get_candidate_voters c }, cur)

/-- The loop of lines 455–460 of `ElectionRace.run`: scan the running
candidates, restarting the `lowest_candidates` list whenever a strictly
smaller score than `lowest_candidates[0]` appears and appending candidates
tied with it.  (The scan ranges over all running candidates, zero-scorers
included.) -/
def lowest_candidates_scan (scores : Cand → ℚ) (running : List Cand) (c0 : Cand) :
    List Cand :=
  running.foldl (fun low c =>
    if scores c < scores low.headI then [c]
    else if scores c = scores low.headI ∧ c ∉ low then low ++ [c]
    else low) [c0]

/-- The no-winner branch of `ElectionRace.run` (lines 438–473): eliminate all
zero-score running candidates together with the `lowest_candidates` the scan
produces (seeded by the first running candidate that is not a zero-scorer),
then complete the round. -/
def run_elimination (r : ElectionRace) (cur : ElectionRaceRound)
    (scores : Cand → ℚ) (running : List Cand) : ElectionRace :=
  let eliminated0 := running.filter (fun c => scores c = 0)
  let eliminated :=
    match running.find? (fun c => c ∉ eliminated0) with
    | none => eliminated0
    | some c0 => eliminated0 ++ lowest_candidates_scan scores running c0
  let rc := eliminated.foldl eliminate_step (r, cur)
  rc.1.updLast rc.2.complete

/-- The winner-selection, overflow-resolution and commit part of the
tabulation step of `ElectionRace.run` (lines 328–473), after the terminal
short-circuit checks: compute the remaining spots, select the round winners
(collapse rule when the running candidates fit, otherwise the quota rule over
the candidates sorted by descending score — Python's stable
`sorted(..., reverse=True)`), resolve overflow, and either commit the winners
(eliminating every still-running candidate once the seat count is reached and
completing the round) or run the no-winner elimination branch. -/
def tabulation_select_commit (r2 : ElectionRace) (cur2 : ElectionRaceRound)
    (scores : Cand → ℚ) (running : List Cand) : ElectionRace × Option PyError :=
  let mrw : Int := (r2.max_winners : Int) - (r2.winners.length : Int)
  let selected : List Cand :=
    if (running.length : Int) ≤ mrw then running
    else (List.insertionSort (fun a b => scores b ≤ scores a) cur2.candidates).filter
      (fun c => c ∈ running ∧ scores c ≥ (r2.quota : ℚ))
  match tie_resolution mrw scores r2.rounds.dropLast selected with
  | .error e => (r2.updLast cur2, some e)
  | .ok crw =>
    if crw.isEmpty then
      (run_elimination r2 cur2 scores running, none)
    else
      let rc := crw.foldl (commit_winner (r2.quota : ℚ) scores) (r2, cur2)
      let cur25 := if rc.1.winners.length = rc.1.max_winners
        then rc.2.running_post.foldl
          (fun rd c => rd.set_candidate_state c ⟨rd.number, .ELIMINATED⟩) rc.2
        else rc.2
      let cur3 := cur25.complete
      let r3 := if cur3.running_post.length = 0
                then { rc.1 with state := .COMPLETE } else rc.1
      (r3.updLast cur3, none)

/-- The tabulation step of `ElectionRace.run` (lines 306–473), reached when
the round is incomplete and no transfer voters remain: take the score
snapshot and the running candidates, apply the two terminal short-circuit
checks of lines 317–326 (neither returns!), then select and commit. -/
def run_tabulation (r : ElectionRace) (cur : ElectionRaceRound) :
    ElectionRace × Option PyError :=
  let scores := cur.get_candidate_score
  let running := cur.running_pre
  let r1 := if running.length = 0 then { r with state := .COMPLETE } else r
  if r1.voters.length = 0
  then tabulation_select_commit { r1 with state := .COMPLETE } cur.complete scores running
  else tabulation_select_commit r1 cur scores running

/-- `ElectionRace.run`: one micro-step of the race state machine.  Returns the
updated race together with the error it raises, if any; Python keeps the
mutations applied before a raise, and so does the returned race. -/
def run (r : ElectionRace) : ElectionRace × Option PyError :=
  if r.state = .COMPLETE then (r, none)
  else
    let r1 : ElectionRace := { r with state := .TABULATING }
    match r1.rounds.getLast? with
    | none =>
      let new_round := r1.candidates.foldl
        (fun rd c => rd.add_candidate c ⟨1, .RUNNING⟩) (ElectionRaceRound.empty 1)
      ({ r1 with rounds := r1.rounds ++ [new_round], transfer_voters := r1.voters }, none)
    | some cur =>
      if cur.state = .COMPLETE then (create_new_round r1 cur, none)
      else
        match r1.transfer_voters with
        | v :: rest =>
          let ballot := voter_cast_ballot v (lookupVoter r1.voter_data v) cur.running_pre
          (ElectionRace.updLast { r1 with transfer_voters := rest } (cur.add_ballot ballot),
            none)
        | [] => run_tabulation r1 cur

/-- `ElectionRace.run_complete`: `while self._state != self.COMPLETE:
self.run()`, with explicit fuel bounding the number of iterations (the loop
body propagates any error `run` raises). -/
def run_complete : Nat → ElectionRace → ElectionRace × Option PyError
  | 0, r => (r, none)
  | fuel + 1, r =>
    if r.state = .COMPLETE then (r, none)
    else
      match ElectionRace.run r with
      | (r', none) => ElectionRace.run_complete fuel r'
      | (r', some e) => (r', some e)

end ElectionRace

/-- The operations a client may perform on a race during its lifetime. -/
inductive Op where
  | add_candidate (c : Cand)
  | add_voter (v : Nat) (prefs : List Cand)
  | run
  deriving DecidableEq, Repr

/-- Apply one operation; Python exceptions leave the partially updated object
behind, which each operation returns alongside the error. -/
def applyOp (r : ElectionRace) : Op → ElectionRace × Option PyError
  | .add_candidate c => r.add_candidate c
  | .add_voter v prefs => r.add_voter v prefs
  | .run => r.run

/-- Apply a sequence of operations, keeping the (possibly partially mutated)
race state across raised errors, as a Python caller catching exceptions
observes it. -/
def applyOps (r : ElectionRace) (ops : List Op) : ElectionRace :=
  ops.foldl (fun r op => (applyOp r op).1) r

/-- The configuration fields of a race that no operation after construction
rewrites: seat count, quota algorithm, candidate roster, candidate-id
dictionary, and voter roster. -/
def sameConfig (a b : ElectionRace) : Prop :=
  a.max_winners = b.max_winners ∧ a.quota_algorithm = b.quota_algorithm ∧
  a.candidates = b.candidates ∧ a.candidate_id = b.candidate_id ∧ a.voters = b.voters

theorem sameConfig_refl (a : ElectionRace) : sameConfig a a :=
  ⟨rfl, rfl, rfl, rfl, rfl⟩

theorem sameConfig_trans {a b c : ElectionRace} (h1 : sameConfig a b)
    (h2 : sameConfig b c) : sameConfig a c := by
  obtain ⟨x1, x2, x3, x4, x5⟩ := h1
  obtain ⟨y1, y2, y3, y4, y5⟩ := h2
  exact ⟨x1.trans y1, x2.trans y2, x3.trans y3, x4.trans y4, x5.trans y5⟩

theorem commit_winner_fold_config (q : ℚ) (scores : Cand → ℚ) :
    ∀ (l : List Cand) (rc : ElectionRace × ElectionRaceRound),
      sameConfig ((l.foldl (ElectionRace.commit_winner q scores) rc).1) rc.1 := by
  intro l
  induction l with
  | nil => intro rc; exact sameConfig_refl _
  | cons c t ih =>
    intro rc
    exact sameConfig_trans (ih _) (sameConfig_refl _)

theorem eliminate_step_fold_config :
    ∀ (l : List Cand) (rc : ElectionRace × ElectionRaceRound),
      sameConfig ((l.foldl ElectionRace.eliminate_step rc).1) rc.1 := by
  intro l
  induction l with
  | nil => intro rc; exact sameConfig_refl _
  | cons c t ih =>
    intro rc
    exact sameConfig_trans (ih _) (sameConfig_refl _)

theorem updLast_config (r : ElectionRace) (cur : ElectionRaceRound) :
    sameConfig (r.updLast cur) r :=
  ⟨rfl, rfl, rfl, rfl, rfl⟩

theorem sameConfig_ite (b : Prop) [Decidable b] (x y z : ElectionRace)
    (hx : sameConfig x z) (hy : sameConfig y z) : sameConfig (if b then x else y) z := by
  split
  · exact hx
  · exact hy

theorem run_elimination_config (r : ElectionRace) (cur : ElectionRaceRound)
    (scores : Cand → ℚ) (running : List Cand) :
    sameConfig (ElectionRace.run_elimination r cur scores running) r := by
  unfold ElectionRace.run_elimination
  exact sameConfig_trans (updLast_config _ _) (eliminate_step_fold_config _ _)

theorem tabulation_select_commit_config (r2 : ElectionRace) (cur2 : ElectionRaceRound)
    (scores : Cand → ℚ) (running : List Cand) :
    sameConfig (ElectionRace.tabulation_select_commit r2 cur2 scores running).1 r2 := by
  simp only [ElectionRace.tabulation_select_commit]
  split
  · exact updLast_config _ _
  · split
    · exact run_elimination_config _ _ _ _
    · refine sameConfig_trans (updLast_config _ _) ?_
      refine sameConfig_trans (sameConfig_ite _ _ _ _ (sameConfig_refl _) (sameConfig_refl _)) ?_
      exact commit_winner_fold_config _ _ _ _

theorem run_tabulation_config (r : ElectionRace) (cur : ElectionRaceRound) :
    sameConfig (ElectionRace.run_tabulation r cur).1 r := by
  simp only [ElectionRace.run_tabulation]
  split <;> split <;>
    exact sameConfig_trans (tabulation_select_commit_config _ _ _ _) ⟨rfl, rfl, rfl, rfl, rfl⟩

/-- `run` never rewrites the race configuration (seat count, algorithm,
rosters, id dictionary). -/
theorem run_config (r : ElectionRace) : sameConfig (ElectionRace.run r).1 r := by
  simp only [ElectionRace.run]
  split
  · exact sameConfig_refl r
  · split
    · exact ⟨rfl, rfl, rfl, rfl, rfl⟩
    · split
      · unfold ElectionRace.create_new_round
        exact ⟨rfl, rfl, rfl, rfl, rfl⟩
      · split
        · exact ⟨rfl, rfl, rfl, rfl, rfl⟩
        · exact run_tabulation_config _ _

/-- C9: calling `run()` on a race whose state is COMPLETE returns immediately
and leaves the race (state, rounds, winners, transfer-voter queue, and every
other field) unchanged, and `run_complete()` makes no further step on a
COMPLETE race regardless of how much fuel its loop is given — it is
idempotent once the race is COMPLETE. -/
theorem run_on_complete_noop (r : ElectionRace) (h : r.state = .COMPLETE) :
    ElectionRace.run r = (r, none) ∧
    ∀ fuel : Nat, ElectionRace.run_complete fuel r = (r, none) := by
  constructor
  · simp only [ElectionRace.run, if_pos h]
  · intro fuel
    cases fuel with
    | zero => rfl
    | succ n => simp only [ElectionRace.run_complete, if_pos h]

/-- Witness for C9 on a concrete COMPLETE race. -/
theorem run_on_complete_noop_witness :
    ({ ElectionRace.init 2 .droop with state := .COMPLETE } : ElectionRace).state
        = .COMPLETE ∧
      ElectionRace.run { ElectionRace.init 2 .droop with state := .COMPLETE }
        = ({ ElectionRace.init 2 .droop with state := .COMPLETE }, none) :=
  ⟨rfl, (run_on_complete_noop _ rfl).1⟩

theorem applyOps_append (r : ElectionRace) (ops : List Op) (op : Op) :
    applyOps r (ops ++ [op]) = (applyOp (applyOps r ops) op).1 := by
  simp [applyOps, List.foldl_append]

/-- The dictionary–roster coherence invariant behind C10: looking up an id in
`_candidate_id` finds exactly the last candidate added with that id. -/
def candidateDictCoherent (r : ElectionRace) : Prop :=
  ∀ q : String, r.get_candidate q = (r.candidates.filter (fun c => c.cid = q)).getLast?

theorem candidateDictCoherent_step (r : ElectionRace) (op : Op)
    (h : candidateDictCoherent r) : candidateDictCoherent (applyOp r op).1 := by
  cases op with
  | add_voter v prefs =>
    simp only [applyOp, ElectionRace.add_voter]
    split
    · exact h
    · split
      · exact h
      · intro q
        exact h q
  | run =>
    intro q
    obtain ⟨-, -, hc, hd, -⟩ := run_config r
    have hq0 := h q
    simp only [applyOp]
    unfold ElectionRace.get_candidate at hq0 ⊢
    rw [hc, hd]
    exact hq0
  | add_candidate c =>
    simp only [applyOp, ElectionRace.add_candidate]
    split
    · exact h
    · split
      · exact h
      · intro q
        have hq0 := h q
        unfold ElectionRace.get_candidate at hq0 ⊢
        simp only [List.filter_append]
        by_cases hq : c.cid = q
        · rw [List.find?_cons_of_pos _ (by simp [hq])]
          have h1 : List.filter (fun c => decide (c.cid = q)) [c] = [c] := by simp [hq]
          rw [h1, List.getLast?_concat]
          rfl
        · rw [List.find?_cons_of_neg _ (by simp [hq])]
          have h1 : List.filter (fun c => decide (c.cid = q)) [c] = [] := by simp [hq]
          rw [h1, List.append_nil]
          exact hq0

/-- C10: over any lifetime of a race built from `init` by `add_candidate`,
`add_voter` and `run` calls, `get_candidate(candidate_id)` returns `None`
for every id under which no candidate was registered, and for a registered id
it returns the candidate last registered under it (the `_candidate_id`
dictionary entry).  Membership of `candidates` is exactly "was successfully
added", so the filtered-roster formulation captures both halves. -/
theorem get_candidate_spec (mw : Nat) (alg : QuotaAlg) (ops : List Op) (q : String) :
    (applyOps (ElectionRace.init mw alg) ops).get_candidate q =
      ((applyOps (ElectionRace.init mw alg) ops).candidates.filter
        (fun c => c.cid = q)).getLast? := by
  suffices h : candidateDictCoherent (applyOps (ElectionRace.init mw alg) ops) from h q
  induction ops using List.reverseRecOn with
  | nil => intro q'; rfl
  | append_singleton ops op ih =>
    rw [applyOps_append]
    exact candidateDictCoherent_step _ op ih

theorem setVoterValue_lookup_self (store : List (Nat × VoterData)) (v : Nat) (q : ℚ) :
    (lookupVoter (setVoterValue store v q) v).value = q := by
  unfold setVoterValue
  split
  · next hany =>
    unfold lookupVoter
    induction store with
    | nil => simp at hany
    | cons p t ih =>
      by_cases hp : p.1 = v
      · simp [List.find?, hp]
      · simp only [List.map_cons, if_neg hp]
        rw [List.find?_cons_of_neg _ (by simp [hp])]
        have hany' : t.any (fun p => p.1 = v) := by
          simp only [List.any_cons] at hany
          rcases Bool.or_eq_true .. |>.mp hany with h | h
          · exact absurd (by simpa using h) hp
          · exact h
        exact ih hany'
  · unfold lookupVoter
    next hany =>
    induction store with
    | nil => simp [List.find?]
    | cons p t ih =>
      have hp : ¬ p.1 = v := by
        intro hh
        exact hany (by simp [List.any_cons, hh])
      rw [List.cons_append, List.find?_cons_of_neg _ (by simp [hp])]
      exact ih (fun hh => hany (by simp [List.any_cons]; right; simpa using hh))

theorem find?_key_map (t : List (Nat × VoterData)) (v w : Nat) (q : ℚ) (hw : w ≠ v) :
    List.find? (fun p => p.1 = w)
        (t.map (fun p => if p.1 = v then (v, ⟨p.2.prefs, q⟩) else p))
      = List.find? (fun p => p.1 = w) t := by
  induction t with
  | nil => rfl
  | cons p t ih =>
    by_cases hpv : p.1 = v
    · rw [List.map_cons, if_pos hpv, List.find?_cons_of_neg _ (by simp; omega),
        List.find?_cons_of_neg _ (by simp [hpv]; omega)]
      exact ih
    · by_cases hpw : p.1 = w
      · rw [List.map_cons, if_neg hpv, List.find?_cons_of_pos _ (by simp [hpw]),
          List.find?_cons_of_pos _ (by simp [hpw])]
      · rw [List.map_cons, if_neg hpv, List.find?_cons_of_neg _ (by simp [hpw]),
          List.find?_cons_of_neg _ (by simp [hpw])]
        exact ih

theorem find?_key_append_miss (t : List (Nat × VoterData)) (v w : Nat) (x : VoterData)
    (hw : w ≠ v) :
    List.find? (fun p => p.1 = w) (t ++ [(v, x)]) = List.find? (fun p => p.1 = w) t := by
  induction t with
  | nil => simp [List.find?, hw, Ne.symm hw]
  | cons p t ih =>
    by_cases hpw : p.1 = w
    · rw [List.cons_append, List.find?_cons_of_pos _ (by simp [hpw]),
        List.find?_cons_of_pos _ (by simp [hpw])]
    · rw [List.cons_append, List.find?_cons_of_neg _ (by simp [hpw]),
        List.find?_cons_of_neg _ (by simp [hpw])]
      exact ih

theorem setVoterValue_lookup_other (store : List (Nat × VoterData)) (v w : Nat) (q : ℚ)
    (hw : w ≠ v) :
    lookupVoter (setVoterValue store v q) w = lookupVoter store w := by
  unfold setVoterValue lookupVoter
  split
  · rw [find?_key_map store v w q hw]
  · rw [find?_key_append_miss store v w _ hw]

theorem voter_value_fold_preserve (f : Ballot → ℚ) (l : List Ballot)
    (vd : List (Nat × VoterData)) (w : Nat) (hw : w ∉ l.map Ballot.voter) :
    lookupVoter (l.foldl (fun s b' => setVoterValue s b'.voter (f b')) vd) w
      = lookupVoter vd w := by
  induction l generalizing vd with
  | nil => rfl
  | cons b t ih =>
    simp only [List.map_cons, List.mem_cons] at hw
    push_neg at hw
    rw [List.foldl_cons, ih _ hw.2, setVoterValue_lookup_other _ _ _ _ hw.1]

theorem voter_value_fold_set (f : Ballot → ℚ) (l : List Ballot) (b : Ballot)
    (vd : List (Nat × VoterData)) (hb : b ∈ l) (hnd : (l.map Ballot.voter).Nodup) :
    (lookupVoter (l.foldl (fun s b' => setVoterValue s b'.voter (f b')) vd) b.voter).value
      = f b := by
  induction l generalizing vd with
  | nil => cases hb
  | cons b' t ih =>
    simp only [List.map_cons, List.nodup_cons] at hnd
    rcases List.mem_cons.mp hb with hb1 | hb1
    · subst hb1
      rw [List.foldl_cons, voter_value_fold_preserve _ _ _ _ hnd.1,
        setVoterValue_lookup_self]
    · exact ih _ hb1 hnd.2

/-- C2: when candidate `c` is committed as a round winner with round score
`s = get_candidate_score c` and quota `q`, the transfer value is
`(s − q)/s` if `s − q > 0` and `1` otherwise, and the voter of each ballot in
`c`'s bucket of the round gets transfer value `ballot.value() × t` (stated
for a bucket whose voters are distinct, which is how run reaches it — one
live ballot per voter). -/
theorem commit_winner_transfer_value (r : ElectionRace) (cur : ElectionRaceRound)
    (c : Cand) (b : Ballot)
    (hb : b ∈ cur.get_candidate_ballots (some c))
    (hnd : ((cur.get_candidate_ballots (some c)).map Ballot.voter).Nodup) :
    (lookupVoter
        ((ElectionRace.commit_winner (r.quota : ℚ) cur.get_candidate_score (r, cur) c).1.voter_data)
        b.voter).value
      = b.value * (if cur.get_candidate_score c - (r.quota : ℚ) > 0
                   then (cur.get_candidate_score c - (r.quota : ℚ)) / cur.get_candidate_score c
                   else 1) := by
  unfold ElectionRace.commit_winner
  have hsame : ∀ k, (cur.set_candidate_state c ⟨cur.number, .WON⟩).get_candidate_ballots k
      = cur.get_candidate_ballots k := fun _ => rfl
  simp only [hsame]
  exact voter_value_fold_set _ _ b r.voter_data hb hnd

/-- Witness for C2: a three-ballot bucket for candidate A, Droop quota 2,
score 3, transfer value 1/3. -/
theorem commit_winner_transfer_value_witness :
    (⟨0, 1, [⟨"a", "A", "p"⟩]⟩ : Ballot) ∈
        (ElectionRaceRound.mk 1
          [(⟨"a", "A", "p"⟩, ⟨1, .RUNNING⟩)] [(⟨"a", "A", "p"⟩, ⟨1, .RUNNING⟩)]
          [(some ⟨"a", "A", "p"⟩, ⟨0, 1, [⟨"a", "A", "p"⟩]⟩),
           (some ⟨"a", "A", "p"⟩, ⟨1, 1, [⟨"a", "A", "p"⟩]⟩),
           (some ⟨"a", "A", "p"⟩, ⟨2, 1, [⟨"a", "A", "p"⟩]⟩)] .INCOMPLETE).get_candidate_ballots
          (some ⟨"a", "A", "p"⟩) ∧
    (lookupVoter
        ((ElectionRace.commit_winner
            (({ ElectionRace.init 1 .droop with voters := [0, 1, 2] } : ElectionRace).quota : ℚ)
            (ElectionRaceRound.mk 1
              [(⟨"a", "A", "p"⟩, ⟨1, .RUNNING⟩)] [(⟨"a", "A", "p"⟩, ⟨1, .RUNNING⟩)]
              [(some ⟨"a", "A", "p"⟩, ⟨0, 1, [⟨"a", "A", "p"⟩]⟩),
               (some ⟨"a", "A", "p"⟩, ⟨1, 1, [⟨"a", "A", "p"⟩]⟩),
               (some ⟨"a", "A", "p"⟩, ⟨2, 1, [⟨"a", "A", "p"⟩]⟩)] .INCOMPLETE).get_candidate_score
            ({ ElectionRace.init 1 .droop with voters := [0, 1, 2] },
             (ElectionRaceRound.mk 1
              [(⟨"a", "A", "p"⟩, ⟨1, .RUNNING⟩)] [(⟨"a", "A", "p"⟩, ⟨1, .RUNNING⟩)]
              [(some ⟨"a", "A", "p"⟩, ⟨0, 1, [⟨"a", "A", "p"⟩]⟩),
               (some ⟨"a", "A", "p"⟩, ⟨1, 1, [⟨"a", "A", "p"⟩]⟩),
               (some ⟨"a", "A", "p"⟩, ⟨2, 1, [⟨"a", "A", "p"⟩]⟩)] .INCOMPLETE))
            ⟨"a", "A", "p"⟩).1.voter_data)
        0).value = 1 * (1 / 3) := by
  constructor
  · decide
  · have h := commit_winner_transfer_value
      { ElectionRace.init 1 .droop with voters := [0, 1, 2] }
      (ElectionRaceRound.mk 1
        [(⟨"a", "A", "p"⟩, ⟨1, .RUNNING⟩)] [(⟨"a", "A", "p"⟩, ⟨1, .RUNNING⟩)]
        [(some ⟨"a", "A", "p"⟩, ⟨0, 1, [⟨"a", "A", "p"⟩]⟩),
         (some ⟨"a", "A", "p"⟩, ⟨1, 1, [⟨"a", "A", "p"⟩]⟩),
         (some ⟨"a", "A", "p"⟩, ⟨2, 1, [⟨"a", "A", "p"⟩]⟩)] .INCOMPLETE)
      ⟨"a", "A", "p"⟩ ⟨0, 1, [⟨"a", "A", "p"⟩]⟩ (by decide) (by decide)
    rw [h]
    decide

theorem add_candidate_fold_fields (cands : List Cand) (f : Cand → ElectionCandidateState) :
    ∀ rd : ElectionRaceRound,
      (cands.foldl (fun rd c => rd.add_candidate c (f c)) rd).pre_state
          = rd.pre_state ++ cands.map (fun c => (c, f c)) ∧
      (cands.foldl (fun rd c => rd.add_candidate c (f c)) rd).post_state
          = rd.post_state ++ cands.map (fun c => (c, f c)) ∧
      (cands.foldl (fun rd c => rd.add_candidate c (f c)) rd).ballots = rd.ballots ∧
      (cands.foldl (fun rd c => rd.add_candidate c (f c)) rd).number = rd.number ∧
      (cands.foldl (fun rd c => rd.add_candidate c (f c)) rd).state = rd.state := by
  induction cands with
  | nil => intro rd; simp
  | cons c t ih =>
    intro rd
    obtain ⟨i1, i2, i3, i4, i5⟩ := ih (rd.add_candidate c (f c))
    refine ⟨?_, ?_, i3, i4, i5⟩
    · rw [List.foldl_cons, i1]
      simp [ElectionRaceRound.add_candidate]
    · rw [List.foldl_cons, i2]
      simp [ElectionRaceRound.add_candidate]

theorem add_ballot_fold_fields (bs : List Ballot) :
    ∀ rd : ElectionRaceRound,
      (bs.foldl ElectionRaceRound.add_ballot rd).ballots.map Prod.snd
          = rd.ballots.map Prod.snd ++ bs ∧
      (bs.foldl ElectionRaceRound.add_ballot rd).pre_state = rd.pre_state ∧
      (bs.foldl ElectionRaceRound.add_ballot rd).post_state = rd.post_state ∧
      (bs.foldl ElectionRaceRound.add_ballot rd).number = rd.number ∧
      (bs.foldl ElectionRaceRound.add_ballot rd).state = rd.state := by
  induction bs with
  | nil => intro rd; simp
  | cons b t ih =>
    intro rd
    obtain ⟨i1, i2, i3, i4, i5⟩ := ih (rd.add_ballot b)
    refine ⟨?_, i2, i3, i4, i5⟩
    · rw [List.foldl_cons, i1]
      simp [ElectionRaceRound.add_ballot]

theorem migrate_fold_fields (cands : List Cand) (bucket : Cand → List Ballot) :
    ∀ rd : ElectionRaceRound,
      ((cands.foldl (fun rd c => (bucket c).foldl ElectionRaceRound.add_ballot rd) rd).ballots.map
          Prod.snd
        = rd.ballots.map Prod.snd ++ cands.flatMap bucket) ∧
      (cands.foldl (fun rd c => (bucket c).foldl ElectionRaceRound.add_ballot rd) rd).pre_state
          = rd.pre_state ∧
      (cands.foldl (fun rd c => (bucket c).foldl ElectionRaceRound.add_ballot rd) rd).post_state
          = rd.post_state ∧
      (cands.foldl (fun rd c => (bucket c).foldl ElectionRaceRound.add_ballot rd) rd).number
          = rd.number ∧
      (cands.foldl (fun rd c => (bucket c).foldl ElectionRaceRound.add_ballot rd) rd).state
          = rd.state := by
  induction cands with
  | nil => intro rd; simp
  | cons c t ih =>
    intro rd
    obtain ⟨i1, i2, i3, i4, i5⟩ := ih ((bucket c).foldl ElectionRaceRound.add_ballot rd)
    obtain ⟨j1, j2, j3, j4, j5⟩ := add_ballot_fold_fields (bucket c) rd
    refine ⟨?_, i2.trans j2, i3.trans j3, i4.trans j4, i5.trans j5⟩
    · rw [List.foldl_cons, i1, j1]
      simp [List.flatMap_cons, List.append_assoc]

theorem lookupState_keyed_map (cands : List Cand) (f : Cand → ElectionCandidateState)
    (c : Cand) (hc : c ∈ cands) :
    ElectionRaceRound.lookupState (cands.map (fun c => (c, f c))) c = some (f c) := by
  induction cands with
  | nil => cases hc
  | cons a t ih =>
    by_cases hac : a = c
    · subst hac
      unfold ElectionRaceRound.lookupState
      rw [List.map_cons, List.find?_cons_of_pos _ (by simp)]
      rfl
    · unfold ElectionRaceRound.lookupState at ih ⊢
      rw [List.map_cons, List.find?_cons_of_neg _ (by simp [hac])]
      exact ih (by rcases List.mem_cons.mp hc with h | h; exact absurd h.symm hac; exact h)

/-- C8: when `run()` is called with the latest round COMPLETE, it appends a
new round numbered R+1 in which every candidate's pre-state (and initial
post-state) is its current post-state of R; the ballots of candidates whose
state did not change in R together with R's exhausted-bucket ballots are the
exact ballot content of R+1, each ballot object unchanged — ballots of
changed candidates are not migrated. -/
theorem run_rollover (r : ElectionRace) (cur : ElectionRaceRound)
    (h1 : r.state ≠ .COMPLETE) (h2 : r.rounds.getLast? = some cur)
    (h3 : cur.state = .COMPLETE) :
    ∃ nr : ElectionRaceRound,
      ElectionRace.run r = ({ r with state := .TABULATING, rounds := r.rounds ++ [nr] }, none) ∧
      nr.number = cur.number + 1 ∧
      nr.state = .INCOMPLETE ∧
      (∀ c ∈ r.candidates,
        ElectionRaceRound.lookupState nr.pre_state c = some (cur.get_candidate_state c) ∧
        ElectionRaceRound.lookupState nr.post_state c = some (cur.get_candidate_state c)) ∧
      (∀ c ∈ r.candidates, ∀ st, ElectionRaceRound.lookupState cur.post_state c = some st →
        ElectionRaceRound.lookupState nr.pre_state c = some st) ∧
      nr.ballots.map Prod.snd =
        ((r.candidates.filter (fun c => c ∉ cur.get_candidates_changed)).flatMap
          (fun c => cur.get_candidate_ballots (some c)))
        ++ cur.get_candidate_ballots none := by
  have hrun : ElectionRace.run r =
      (ElectionRace.create_new_round { r with state := .TABULATING } cur, none) := by
    simp only [ElectionRace.run, if_neg h1]
    have : ({ r with state := RaceState.TABULATING } : ElectionRace).rounds.getLast? = some cur :=
      h2
    rw [this]
    simp only [if_pos h3]
  unfold ElectionRace.create_new_round at hrun
  dsimp only at hrun
  set f : Cand → ElectionCandidateState := fun c => cur.get_candidate_state c with hf
  set nr0 := (ElectionRaceRound.empty (cur.number + 1))
  set nr1 := r.candidates.foldl (fun rd c => rd.add_candidate c (f c)) nr0 with hnr1
  set nr2 := (r.candidates.filter (fun c => c ∉ cur.get_candidates_changed)).foldl
    (fun rd c => (cur.get_candidate_ballots (some c)).foldl ElectionRaceRound.add_ballot rd)
    nr1 with hnr2
  set nr3 := (cur.get_candidate_ballots none).foldl ElectionRaceRound.add_ballot nr2 with hnr3
  obtain ⟨a1, a2, a3, a4, a5⟩ := add_candidate_fold_fields r.candidates f nr0
  obtain ⟨b1, b2, b3, b4, b5⟩ := migrate_fold_fields
    (r.candidates.filter (fun c => c ∉ cur.get_candidates_changed))
    (fun c => cur.get_candidate_ballots (some c)) nr1
  obtain ⟨c1, c2, c3, c4, c5⟩ := add_ballot_fold_fields (cur.get_candidate_ballots none) nr2
  refine ⟨nr3, hrun, ?_, ?_, ?_, ?_, ?_⟩
  · rw [hnr3, c4, hnr2, b4, hnr1, a4]
    rfl
  · rw [hnr3, c5, hnr2, b5, hnr1, a5]
    rfl
  · intro c hc
    have hpre : nr3.pre_state = r.candidates.map (fun c => (c, f c)) := by
      rw [hnr3, c2, hnr2, b2, hnr1, a1]
      rfl
    have hpost : nr3.post_state = r.candidates.map (fun c => (c, f c)) := by
      rw [hnr3, c3, hnr2, b3, hnr1, a2]
      rfl
    rw [hpre, hpost]
    exact ⟨lookupState_keyed_map _ _ _ hc, lookupState_keyed_map _ _ _ hc⟩
  · intro c hc st hst
    have hpre : nr3.pre_state = r.candidates.map (fun c => (c, f c)) := by
      rw [hnr3, c2, hnr2, b2, hnr1, a1]
      rfl
    rw [hpre, lookupState_keyed_map _ _ _ hc, hf]
    simp only [ElectionRaceRound.get_candidate_state, hst, Option.getD_some]
  · rw [hnr3, c1, hnr2, b1, hnr1, a3]
    rfl

/-- A completed first round used by the C8 witness: A changed RUNNING → WON,
B unchanged; one ballot per bucket for A, B and the exhausted bucket. -/
def rolloverWitnessRound : ElectionRaceRound :=
  { number := 1,
    pre_state := [(⟨"a", "A", "p"⟩, ⟨1, .RUNNING⟩), (⟨"b", "B", "p"⟩, ⟨1, .RUNNING⟩)],
    post_state := [(⟨"a", "A", "p"⟩, ⟨1, .WON⟩), (⟨"b", "B", "p"⟩, ⟨1, .RUNNING⟩)],
    ballots := [(some ⟨"a", "A", "p"⟩, ⟨0, 1, [⟨"a", "A", "p"⟩]⟩),
                (some ⟨"b", "B", "p"⟩, ⟨1, 1, [⟨"b", "B", "p"⟩]⟩),
                (none, ⟨2, 1, []⟩)],
    state := .COMPLETE }

/-- The mid-tabulation race used by the C8 witness. -/
def rolloverWitnessRace : ElectionRace :=
  { ElectionRace.init 2 .droop with
      state := .TABULATING,
      candidates := [⟨"a", "A", "p"⟩, ⟨"b", "B", "p"⟩],
      voters := [0, 1, 2],
      rounds := [rolloverWitnessRound] }

/-- Witness for C8 on the concrete race above. -/
theorem run_rollover_witness :
    (rolloverWitnessRace.state ≠ .COMPLETE) ∧
    (rolloverWitnessRace.rounds.getLast? = some rolloverWitnessRound) ∧
    (rolloverWitnessRound.state = .COMPLETE) ∧
    ∃ nr : ElectionRaceRound,
      ElectionRace.run rolloverWitnessRace =
        ({ rolloverWitnessRace with state := RaceState.TABULATING, rounds := rolloverWitnessRace.rounds ++ [nr] }, none) ∧
      nr.number = rolloverWitnessRound.number + 1 ∧
      nr.state = .INCOMPLETE ∧
      (∀ c ∈ rolloverWitnessRace.candidates,
        ElectionRaceRound.lookupState nr.pre_state c
            = some (rolloverWitnessRound.get_candidate_state c) ∧
        ElectionRaceRound.lookupState nr.post_state c
            = some (rolloverWitnessRound.get_candidate_state c)) ∧
      (∀ c ∈ rolloverWitnessRace.candidates, ∀ st,
        ElectionRaceRound.lookupState rolloverWitnessRound.post_state c = some st →
        ElectionRaceRound.lookupState nr.pre_state c = some st) ∧
      nr.ballots.map Prod.snd =
        ((rolloverWitnessRace.candidates.filter
            (fun c => c ∉ rolloverWitnessRound.get_candidates_changed)).flatMap
          (fun c => rolloverWitnessRound.get_candidate_ballots (some c)))
        ++ rolloverWitnessRound.get_candidate_ballots none :=
  ⟨by decide, by decide, by decide,
    run_rollover rolloverWitnessRace rolloverWitnessRound (by decide) (by decide) (by decide)⟩

/-- One lexicographic step of a Python tuple comparison: the head components
decide unless equal, in which case the rest of the tuple decides. -/
def lexCons {α : Type} [LinearOrder α] (a b : α) (rest : Prop) : Prop :=
  a < b ∨ (a = b ∧ rest)

instance {α : Type} [LinearOrder α] (a b : α) (rest : Prop) [Decidable rest] :
    Decidable (lexCons a b rest) := by
  unfold lexCons
  infer_instance

theorem lexCons_total {α : Type} [LinearOrder α] (a b : α) (p q : Prop) (h : p ∨ q) :
    lexCons a b p ∨ lexCons b a q := by
  rcases lt_trichotomy a b with hab | hab | hab
  · exact Or.inl (Or.inl hab)
  · rcases h with h | h
    · exact Or.inl (Or.inr ⟨hab, h⟩)
    · exact Or.inr (Or.inr ⟨hab.symm, h⟩)
  · exact Or.inr (Or.inl hab)

theorem lexCons_trans {α : Type} [LinearOrder α] (a b c : α) (p q r : Prop)
    (h : p → q → r) (h1 : lexCons a b p) (h2 : lexCons b c q) : lexCons a c r := by
  rcases h1 with h1 | ⟨h1, hp⟩
  · rcases h2 with h2 | ⟨h2, hq⟩
    · exact Or.inl (lt_trans h1 h2)
    · exact Or.inl (h2 ▸ h1)
  · rcases h2 with h2 | ⟨h2, hq⟩
    · exact Or.inl (h1 ▸ h2)
    · exact Or.inr ⟨h1.trans h2, h hp hq⟩

/-- Python's lexicographic comparison of the 4-tuples used as sort keys in
`get_data_table`. -/
def lex4Le (x y : Int × ℚ × String × String) : Prop :=
  lexCons x.1 y.1 (lexCons x.2.1 y.2.1 (lexCons x.2.2.1 y.2.2.1 (x.2.2.2 ≤ y.2.2.2)))

instance (x y : Int × ℚ × String × String) : Decidable (lex4Le x y) := by
  unfold lex4Le
  infer_instance

theorem lex4Le_total (x y : Int × ℚ × String × String) : lex4Le x y ∨ lex4Le y x :=
  lexCons_total _ _ _ _ (lexCons_total _ _ _ _ (lexCons_total _ _ _ _ (le_total _ _)))

theorem lex4Le_trans (x y z : Int × ℚ × String × String)
    (h1 : lex4Le x y) (h2 : lex4Le y z) : lex4Le x z :=
  lexCons_trans _ _ _ _ _ _
    (lexCons_trans _ _ _ _ _ _
      (lexCons_trans _ _ _ _ _ _ (fun ha hb => le_trans ha hb)))
    h1 h2

/-- The lexicographic comparison of the 3-tuples used as sort keys for the
RUNNING group of `get_data_table`. -/
def lex3Le (x y : ℚ × String × String) : Prop :=
  lexCons x.1 y.1 (lexCons x.2.1 y.2.1 (x.2.2 ≤ y.2.2))

instance (x y : ℚ × String × String) : Decidable (lex3Le x y) := by
  unfold lex3Le
  infer_instance

/-- Sorting with respect to a pulled-back lexicographic key yields a list
sorted for that key (Python's stable `sorted(l, key=...)`, modelled by
`List.insertionSort`). -/
theorem sorted_insertionSort_lex4 {α : Type} (key : α → Int × ℚ × String × String)
    (l : List α) :
    List.Sorted (fun a b => lex4Le (key a) (key b))
      (List.insertionSort (fun a b => lex4Le (key a) (key b)) l) := by
  haveI : IsTotal α (fun a b => lex4Le (key a) (key b)) :=
    ⟨fun a b => lex4Le_total (key a) (key b)⟩
  haveI : IsTrans α (fun a b => lex4Le (key a) (key b)) :=
    ⟨fun a b c h1 h2 => lex4Le_trans _ _ _ h1 h2⟩
  exact List.sorted_insertionSort _ l

namespace ElectionRace

/-- The round object a candidate-state back-reference points to, recovered
from the round number (the arena-and-index reading of the cyclic reference
that the specification's design notes endorse). -/
def roundOfNumber (race : ElectionRace) (n : Nat) : ElectionRaceRound :=
  (race.rounds.find? (fun rd => rd.number = n)).getD (ElectionRaceRound.empty n)

/-- `ElectionRace.get_round_previous`: the round before the given one in the
race's round list (`None` for the first round).  Python raises `ValueError`
when the round is not in the list; the model returns `none` there. -/
def get_round_previous (race : ElectionRace) (rd : ElectionRaceRound) :
    Option ElectionRaceRound :=
  if rd ∈ race.rounds then
    match race.rounds.indexOf rd with
    | 0 => none
    | i + 1 => race.rounds[i]?
  else none

/-- The candidate-state map `get_data_table` reads: pre-states for an
INCOMPLETE round, post-states for a COMPLETE one. -/
def table_states (rd : ElectionRaceRound) (c : Cand) : ElectionCandidateState :=
  if rd.state = .INCOMPLETE
  then (ElectionRaceRound.lookupState rd.pre_state c).getD ⟨0, .RUNNING⟩
  else (ElectionRaceRound.lookupState rd.post_state c).getD ⟨0, .RUNNING⟩

/-- The score the table shows for a WON or ELIMINATED candidate: its score in
the round its current state points back to
(`candidate_states[c].round().get_candidate_score(c)`). -/
def state_round_score (race : ElectionRace) (rd : ElectionRaceRound) (c : Cand) : ℚ :=
  (race.roundOfNumber (table_states rd c).round).get_candidate_score c

/-- The sort key of the WON group of `get_data_table` (line 168):
`(-1 * (round - won_round), -1 * won_score, party, name)`. -/
def won_sort_key (race : ElectionRace) (rd : ElectionRaceRound) (c : Cand) :
    Int × ℚ × String × String :=
  (-((rd.number : Int) - ((table_states rd c).round : Int)),
   -(state_round_score race rd c), c.party, c.name)

/-- The sort key of the ELIMINATED group of `get_data_table` (line 199):
`(-1 * elim_round, -1 * elim_score, party, name)`. -/
def elim_sort_key (race : ElectionRace) (rd : ElectionRaceRound) (c : Cand) :
    Int × ℚ × String × String :=
  (-(((table_states rd c).round : Int)),
   -(state_round_score race rd c), c.party, c.name)

/-- The sort key of the RUNNING group of `get_data_table` (line 183):
`(-1 * current_score, party, name)`. -/
def running_sort_key (rd : ElectionRaceRound) (c : Cand) : ℚ × String × String :=
  (-(rd.get_candidate_score c), c.party, c.name)

/-- One state group of the table (`candidate_state_groups[k]`), in the
round's candidate order. -/
def table_group (rd : ElectionRaceRound) (k : CandStateKind) : List Cand :=
  rd.candidates.filter (fun c => (table_states rd c).state = k)

/-- The sorted WON block of `get_data_table`. -/
def table_group_won (race : ElectionRace) (rd : ElectionRaceRound) : List Cand :=
  List.insertionSort (fun a b => lex4Le (won_sort_key race rd a) (won_sort_key race rd b))
    (table_group rd .WON)

/-- The sorted RUNNING block of `get_data_table`. -/
def table_group_running (rd : ElectionRaceRound) : List Cand :=
  List.insertionSort (fun a b => lex3Le (running_sort_key rd a) (running_sort_key rd b))
    (table_group rd .RUNNING)

/-- The sorted ELIMINATED block of `get_data_table`. -/
def table_group_eliminated (race : ElectionRace) (rd : ElectionRaceRound) : List Cand :=
  List.insertionSort (fun a b => lex4Le (elim_sort_key race rd a) (elim_sort_key race rd b))
    (table_group rd .ELIMINATED)

/-- The RUNNING and ELIMINATED rows that follow the WON block in the table;
an eliminated candidate shows as TRANSFERRING when the round is not COMPLETE
and the candidate changed state in the previous round. -/
def table_tail (race : ElectionRace) (rd : ElectionRaceRound) : List (Cand × String) :=
  let previous_changed := match race.get_round_previous rd with
    | some p => p.get_candidates_changed
    | none => []
  (table_group_running rd).map (fun c => (c, "RUNNING")) ++
  (table_group_eliminated race rd).map (fun c =>
    (c, if rd.state ≠ .COMPLETE ∧ c ∈ previous_changed then "TRANSFERRING" else "ELIMINATED"))

/-- `ElectionRace.get_data_table`, restricted to the candidate and status
columns (the name, party and status of each row, in row order).  The numeric
display columns are string renderings of the quota and scores and do not
affect the ordering the claims speak about. -/
def get_data_table (race : ElectionRace) (rd : ElectionRaceRound) : List (Cand × String) :=
  (table_group_won race rd).map (fun c => (c, "WON")) ++ table_tail race rd

end ElectionRace

/-- C5 amended: the data table lists the WON candidates first; they are a
permutation of the round's WON group sorted by the code's key — earliest
winning round first (the key `-(current_round - won_round)` is ascending in
the winning round number), then higher score at the winning round, then
party, then name. -/
theorem data_table_won_block (race : ElectionRace) (rd : ElectionRaceRound) :
    ElectionRace.get_data_table race rd
      = (ElectionRace.table_group_won race rd).map (fun c => (c, "WON"))
        ++ ElectionRace.table_tail race rd ∧
    (ElectionRace.table_group_won race rd).Perm (ElectionRace.table_group rd .WON) ∧
    List.Sorted (fun a b =>
      (ElectionRace.table_states rd a).round < (ElectionRace.table_states rd b).round ∨
      ((ElectionRace.table_states rd a).round = (ElectionRace.table_states rd b).round ∧
        (ElectionRace.state_round_score race rd b < ElectionRace.state_round_score race rd a ∨
         (ElectionRace.state_round_score race rd a = ElectionRace.state_round_score race rd b ∧
          (a.party < b.party ∨ (a.party = b.party ∧ a.name ≤ b.name))))))
      (ElectionRace.table_group_won race rd) := by
  refine ⟨rfl, List.perm_insertionSort _ _, ?_⟩
  have hs := sorted_insertionSort_lex4 (ElectionRace.won_sort_key race rd)
    (ElectionRace.table_group rd .WON)
  refine hs.imp ?_
  intro a b h
  rcases h with h | ⟨h, hrest⟩
  · left
    simp only [ElectionRace.won_sort_key] at h
    omega
  · right
    constructor
    · simp only [ElectionRace.won_sort_key] at h
      omega
    · rcases hrest with h2 | ⟨h2, hrest2⟩
      · left
        simp only [ElectionRace.won_sort_key] at h2
        exact neg_lt_neg_iff.mp h2
      · right
        refine ⟨by simpa [ElectionRace.won_sort_key, neg_inj] using h2, ?_⟩
        rcases hrest2 with h3 | ⟨h3, h4⟩
        · exact Or.inl h3
        · exact Or.inr ⟨h3, h4⟩

/-- Round 1 of the C5 counterexample race: X wins it with score 1. -/
def c5Round1 : ElectionRaceRound :=
  { number := 1,
    pre_state := [(⟨"x", "X", "p"⟩, ⟨1, .RUNNING⟩), (⟨"y", "Y", "p"⟩, ⟨1, .RUNNING⟩)],
    post_state := [(⟨"x", "X", "p"⟩, ⟨1, .WON⟩), (⟨"y", "Y", "p"⟩, ⟨1, .RUNNING⟩)],
    ballots := [(some ⟨"x", "X", "p"⟩, ⟨0, 1, [⟨"x", "X", "p"⟩]⟩)],
    state := .COMPLETE }

/-- Round 2 of the C5 counterexample race: Y wins it with score 1; the round
is COMPLETE, so the table reads post-states. -/
def c5Round2 : ElectionRaceRound :=
  { number := 2,
    pre_state := [(⟨"x", "X", "p"⟩, ⟨1, .WON⟩), (⟨"y", "Y", "p"⟩, ⟨1, .RUNNING⟩)],
    post_state := [(⟨"x", "X", "p"⟩, ⟨1, .WON⟩), (⟨"y", "Y", "p"⟩, ⟨2, .WON⟩)],
    ballots := [(some ⟨"y", "Y", "p"⟩, ⟨0, 1, [⟨"y", "Y", "p"⟩]⟩)],
    state := .COMPLETE }

/-- The two-round race of the C5 counterexample. -/
def c5Race : ElectionRace :=
  { ElectionRace.init 2 .droop with
      state := .COMPLETE,
      candidates := [⟨"x", "X", "p"⟩, ⟨"y", "Y", "p"⟩],
      voters := [0],
      rounds := [c5Round1, c5Round2],
      winners := [⟨"x", "X", "p"⟩, ⟨"y", "Y", "p"⟩] }

/-- C5 counterexample: in the data table for round 2, candidate X — whose
winning round is 1 — appears before candidate Y, whose winning round is 2:
the WON block is ordered earliest winning round first, not most recent
first. -/
theorem data_table_recent_first_cex :
    ElectionRace.get_data_table c5Race c5Round2
      = [(⟨"x", "X", "p"⟩, "WON"), (⟨"y", "Y", "p"⟩, "WON")] ∧
    (ElectionRace.table_states c5Round2 ⟨"x", "X", "p"⟩).round = 1 ∧
    (ElectionRace.table_states c5Round2 ⟨"y", "Y", "p"⟩).round = 2 := by
  refine ⟨by decide, by decide, by decide⟩

/-- Witness for the amended C5 at the counterexample race (the theorem has no
hypotheses; this instantiates it at a concrete round). -/
theorem data_table_won_block_witness :
    ElectionRace.get_data_table c5Race c5Round2
      = (ElectionRace.table_group_won c5Race c5Round2).map (fun c => (c, "WON"))
        ++ ElectionRace.table_tail c5Race c5Round2 :=
  (data_table_won_block c5Race c5Round2).1

theorem sorted_desc_erase (scores : Cand → ℚ) (l : List Cand) (a : Cand)
    (hs : List.Sorted (fun a b => scores b ≤ scores a) l) :
    List.Sorted (fun a b => scores b ≤ scores a) (l.erase a) :=
  hs.sublist (List.erase_sublist a l)

theorem tie_resolution_inner_spec (mrw : Int) (scores : Cand → ℚ) :
    ∀ (n : Nat) (prev : ElectionRaceRound) (rest : List ElectionRaceRound)
      (lowest crw : List Cand),
      lowest.length + rest.length ≤ n →
      List.Sorted (fun a b => scores b ≤ scores a) crw →
      (∀ out, ElectionRace.tie_resolution_inner mrw prev rest lowest crw = .ok out →
        (out.length : Int) ≤ mrw ∧ List.Sorted (fun a b => scores b ≤ scores a) out) ∧
      (∀ e, ElectionRace.tie_resolution_inner mrw prev rest lowest crw = .error e →
        e = .electionRaceErrorTie ∨ e = .indexOutOfRange) := by
  intro n
  induction n using Nat.strong_induction_on with
  | _ n ih =>
    intro prev rest lowest crw hn hs
    rw [ElectionRace.tie_resolution_inner.eq_def]
    split
    · next hguard =>
      constructor
      · intro out hout
        injection hout with hout
        subst hout
        exact ⟨hguard, hs⟩
      · intro e he
        exact Except.noConfusion he
    · next hguard =>
      dsimp only
      split
      · constructor
        · intro out hout
          exact Except.noConfusion hout
        · intro e he
          injection he with he
          exact Or.inr he.symm
      · next h2 =>
        split
        · next hneq =>
          set pl := List.insertionSort
            (fun x y => prev.get_candidate_score y ≤ prev.get_candidate_score x) lowest with hpl
          have ha : pl.get ⟨pl.length - 1, by omega⟩ ∈ lowest :=
            (List.perm_insertionSort _ lowest).subset (List.get_mem pl _ _)
          have hlt : (lowest.erase (pl.get ⟨pl.length - 1, by omega⟩)).length + rest.length < n := by
            have hx2 : (lowest.erase (pl.get ⟨pl.length - 1, by omega⟩)).length
                = lowest.length - 1 := List.length_erase_of_mem ha
            have hx3 : 0 < lowest.length := List.length_pos.mpr (List.ne_nil_of_mem ha)
            omega
          exact ih _ hlt prev rest _ _ (le_refl _) (sorted_desc_erase scores crw _ hs)
        · split
          · constructor
            · intro out hout
              exact Except.noConfusion hout
            · intro e he
              injection he with he
              exact Or.inl he.symm
          · next hr =>
            have hlt : lowest.length + rest.dropLast.length < n := by
              have h4 : 0 < rest.length := List.length_pos.mpr hr
              have h5 : rest.dropLast.length = rest.length - 1 := List.length_dropLast rest
              omega
            exact ih _ hlt _ rest.dropLast _ _ (le_refl _) hs

/-- C3 amended: whenever winner selection produces more quota-meeting round
winners than the remaining spots, overflow resolution — a total function, so
it always terminates — on success leaves at most `max_round_winners` winners
still in descending-score order; when it fails, the failure is either the
UnresolvableTie `ElectionRaceError` (the backward walk over prior rounds was
exhausted) or a Python `IndexError`, raised when the group tied at the
cutoff shrinks to a single candidate while the winner list still exceeds the
remaining spots (the inner loop never re-examines current-round scores). -/
theorem tie_resolution_overflow_spec (mrw : Int) (scores : Cand → ℚ)
    (prior : List ElectionRaceRound) (crw : List Cand)
    (hs : List.Sorted (fun a b => scores b ≤ scores a) crw) :
    (∀ out, ElectionRace.tie_resolution mrw scores prior crw = .ok out →
      (out.length : Int) ≤ mrw ∧ List.Sorted (fun a b => scores b ≤ scores a) out) ∧
    (∀ e, ElectionRace.tie_resolution mrw scores prior crw = .error e →
      e = .electionRaceErrorTie ∨ e = .indexOutOfRange) := by
  suffices h : ∀ (n : Nat) (crw : List Cand), crw.length ≤ n →
      List.Sorted (fun a b => scores b ≤ scores a) crw →
      (∀ out, ElectionRace.tie_resolution mrw scores prior crw = .ok out →
        (out.length : Int) ≤ mrw ∧ List.Sorted (fun a b => scores b ≤ scores a) out) ∧
      (∀ e, ElectionRace.tie_resolution mrw scores prior crw = .error e →
        e = .electionRaceErrorTie ∨ e = .indexOutOfRange) from
    h crw.length crw (le_refl _) hs
  intro n
  induction n using Nat.strong_induction_on with
  | _ n ih =>
    intro crw hn hs
    rw [ElectionRace.tie_resolution.eq_def]
    split
    · next hguard =>
      constructor
      · intro out hout
        injection hout with hout
        subst hout
        exact ⟨hguard, hs⟩
      · intro e he
        exact Except.noConfusion he
    · next hguard =>
      split
      · constructor
        · intro out hout
          exact Except.noConfusion hout
        · intro e he
          injection he with he
          exact Or.inr he.symm
      · next h2 =>
        dsimp only
        split
        · have hlt : crw.dropLast.length < n := by
            rw [List.length_dropLast]
            omega
          exact ih _ hlt crw.dropLast (le_refl _)
            (hs.sublist (List.dropLast_sublist crw))
        · split
          · constructor
            · intro out hout
              exact Except.noConfusion hout
            · intro e he
              injection he with he
              exact Or.inl he.symm
          · next hp =>
            exact tie_resolution_inner_spec mrw scores _ _ prior.dropLast _ crw
              (le_refl _) hs

def c3aR : Cand := ⟨"a", "A", "p"⟩
def c3bR : Cand := ⟨"b", "B", "p"⟩
def c3cR : Cand := ⟨"c", "C", "p"⟩
def c3xR : Cand := ⟨"x", "X", "p"⟩
def c3yR : Cand := ⟨"y", "Y", "p"⟩
def c3Round1 : ElectionRaceRound :=
  { number := 1,
    pre_state := [(c3xR, ⟨1, .RUNNING⟩), (c3yR, ⟨1, .RUNNING⟩), (c3aR, ⟨1, .RUNNING⟩),
                  (c3bR, ⟨1, .RUNNING⟩), (c3cR, ⟨1, .RUNNING⟩)],
    post_state := [(c3xR, ⟨1, .WON⟩), (c3yR, ⟨1, .WON⟩), (c3aR, ⟨1, .RUNNING⟩),
                   (c3bR, ⟨1, .RUNNING⟩), (c3cR, ⟨1, .RUNNING⟩)],
    ballots := [(some c3bR, ⟨3, 1, [c3bR]⟩), (some c3bR, ⟨4, 1, [c3bR]⟩),
                (some c3cR, ⟨5, 1, [c3cR]⟩)],
    state := .COMPLETE }
def c3Round2 : ElectionRaceRound :=
  { number := 2,
    pre_state := [(c3xR, ⟨1, .WON⟩), (c3yR, ⟨1, .WON⟩), (c3aR, ⟨1, .RUNNING⟩),
                  (c3bR, ⟨1, .RUNNING⟩), (c3cR, ⟨1, .RUNNING⟩)],
    post_state := [(c3xR, ⟨1, .WON⟩), (c3yR, ⟨1, .WON⟩), (c3aR, ⟨1, .RUNNING⟩),
                   (c3bR, ⟨1, .RUNNING⟩), (c3cR, ⟨1, .RUNNING⟩)],
    ballots := [(some c3aR, ⟨0, 1, [c3aR]⟩), (some c3aR, ⟨1, 1, [c3aR]⟩),
                (some c3aR, ⟨2, 1, [c3aR]⟩), (some c3bR, ⟨3, 1, [c3bR]⟩),
                (some c3bR, ⟨4, 1, [c3bR]⟩), (some c3cR, ⟨5, 1, [c3cR]⟩),
                (some c3cR, ⟨6, 1, [c3cR]⟩)],
    state := .INCOMPLETE }
def c3Race : ElectionRace :=
  { max_winners := 3, quota_algorithm := .hare,
    candidates := [c3xR, c3yR, c3aR, c3bR, c3cR],
    candidate_id := [("x", c3xR), ("y", c3yR), ("a", c3aR), ("b", c3bR), ("c", c3cR)],
    voters := [0, 1, 2, 3, 4, 5, 6],
    voter_data := [],
    rounds := [c3Round1, c3Round2],
    winners := [c3xR, c3yR], transfer_voters := [], state := .TABULATING }

theorem tsc_error (r2 : ElectionRace) (cur2 : ElectionRaceRound) (scores : Cand → ℚ)
    (running : List Cand) (e : PyError)
    (h : ElectionRace.tie_resolution ((r2.max_winners : Int) - (r2.winners.length : Int))
          scores r2.rounds.dropLast
          (if ((running.length : Int) ≤ (r2.max_winners : Int) - (r2.winners.length : Int))
           then running
           else (List.insertionSort (fun a b => scores b ≤ scores a) cur2.candidates).filter
             (fun c => c ∈ running ∧ scores c ≥ (r2.quota : ℚ))) = .error e) :
    ElectionRace.tabulation_select_commit r2 cur2 scores running
      = (r2.updLast cur2, some e) := by
  unfold ElectionRace.tabulation_select_commit
  dsimp only
  rw [h]

theorem t_e1 : ElectionRace.tie_resolution 1 c3Round2.get_candidate_score
    [c3Round1] [c3aR, c3bR, c3cR]
    = ElectionRace.tie_resolution_inner 1 c3Round1 [] [c3bR, c3cR] [c3aR, c3bR, c3cR] := by
  rw [ElectionRace.tie_resolution.eq_def]
  rfl

theorem t_e2 : ElectionRace.tie_resolution_inner 1 c3Round1 [] [c3bR, c3cR] [c3aR, c3bR, c3cR]
    = ElectionRace.tie_resolution_inner 1 c3Round1 [] [c3bR] [c3aR, c3bR] := by
  rw [ElectionRace.tie_resolution_inner.eq_def]
  rfl

theorem t_e3 : ElectionRace.tie_resolution_inner 1 c3Round1 [] [c3bR] [c3aR, c3bR]
    = .error .indexOutOfRange := by
  rw [ElectionRace.tie_resolution_inner.eq_def]
  rfl

theorem t_htie : ElectionRace.tie_resolution 1 c3Round2.get_candidate_score
    [c3Round1] [c3aR, c3bR, c3cR] = .error .indexOutOfRange :=
  (t_e1.trans t_e2).trans t_e3

theorem t_step1 : ElectionRace.run c3Race =
    ElectionRace.tabulation_select_commit c3Race c3Round2
      c3Round2.get_candidate_score c3Round2.running_pre := rfl


/-- C3 counterexample: a full `run()` call on `c3Race` — seven voters, Hare
quota 2, one remaining seat, quota-meeting winners A(3), B(2), C(2), previous
round scores B=2, C=1 — fails with a Python `IndexError`, not the
UnresolvableTie `ElectionRaceError`: after C is removed through the previous
round, the tied group is the single candidate B while two winners still
exceed the one remaining spot, and `previous_round_lowest_winners[-2]` is out
of range. -/
theorem overflow_resolution_index_error_cex :
    (ElectionRace.run c3Race).2 = some PyError.indexOutOfRange ∧
    (ElectionRace.run c3Race).2 ≠ some PyError.electionRaceErrorTie := by
  constructor
  · rw [t_step1, tsc_error c3Race c3Round2 c3Round2.get_candidate_score
      c3Round2.running_pre _ t_htie]
  · rw [t_step1, tsc_error c3Race c3Round2 c3Round2.get_candidate_score
      c3Round2.running_pre _ t_htie]
    decide

/-- Witness for the amended C3 at the counterexample's concrete input. -/
theorem tie_resolution_overflow_spec_witness :
    List.Sorted (fun a b => c3Round2.get_candidate_score b ≤ c3Round2.get_candidate_score a)
      [c3aR, c3bR, c3cR] ∧
    (∀ e, ElectionRace.tie_resolution 1 c3Round2.get_candidate_score [c3Round1]
        [c3aR, c3bR, c3cR] = .error e →
      e = .electionRaceErrorTie ∨ e = .indexOutOfRange) :=
  ⟨by decide,
   (tie_resolution_overflow_spec 1 c3Round2.get_candidate_score [c3Round1]
      [c3aR, c3bR, c3cR] (by decide)).2⟩

/-- Both quota providers floor their result at 1, so a race quota is always
positive. -/
theorem droop_quota_ok_pos (v mw : Int) :
    ∃ n, DroopQuota.get_quota v mw = .ok n ∧ 1 ≤ n := by
  unfold DroopQuota.get_quota
  split
  · next h => exact ⟨_, rfl, by omega⟩
  · exact ⟨1, rfl, le_refl 1⟩

theorem hare_quota_ok_pos (v mw : Int) :
    ∀ n, HareQuota.get_quota v mw = .ok n → 1 ≤ n := by
  unfold HareQuota.get_quota
  split
  · intro n h
    exact Except.noConfusion h
  · split
    · next h =>
      intro n hn
      injection hn with hn
      omega
    · intro n hn
      injection hn with hn
      omega

/-- Both quota providers floor their result at 1, so a race quota is always
positive. -/
theorem quota_pos (r : ElectionRace) : 1 ≤ r.quota := by
  unfold ElectionRace.quota
  cases r.quota_algorithm with
  | droop =>
    obtain ⟨n, hok, hpos⟩ := droop_quota_ok_pos r.voters.length r.max_winners
    show 1 ≤ ((DroopQuota.get_quota r.voters.length r.max_winners).toOption.getD 1).toNat
    rw [hok]
    show 1 ≤ n.toNat
    omega
  | hare =>
    cases hq : HareQuota.get_quota r.voters.length r.max_winners with
    | ok n =>
      have hpos := hare_quota_ok_pos r.voters.length r.max_winners n hq
      show 1 ≤ n.toNat
      omega
    | error e =>
      show 1 ≤ (1 : Int).toNat
      decide

/-- The first round `run` builds: every candidate RUNNING, no ballots. -/
theorem build_round_fields (cands : List Cand) :
    (cands.foldl (fun rd c => rd.add_candidate c ⟨1, .RUNNING⟩)
        (ElectionRaceRound.empty 1)).pre_state
      = cands.map (fun c => (c, (⟨1, .RUNNING⟩ : ElectionCandidateState))) ∧
    (cands.foldl (fun rd c => rd.add_candidate c ⟨1, .RUNNING⟩)
        (ElectionRaceRound.empty 1)).post_state
      = cands.map (fun c => (c, (⟨1, .RUNNING⟩ : ElectionCandidateState))) ∧
    (cands.foldl (fun rd c => rd.add_candidate c ⟨1, .RUNNING⟩)
        (ElectionRaceRound.empty 1)).ballots = [] ∧
    (cands.foldl (fun rd c => rd.add_candidate c ⟨1, .RUNNING⟩)
        (ElectionRaceRound.empty 1)).number = 1 ∧
    (cands.foldl (fun rd c => rd.add_candidate c ⟨1, .RUNNING⟩)
        (ElectionRaceRound.empty 1)).state = .INCOMPLETE := by
  obtain ⟨a1, a2, a3, a4, a5⟩ :=
    add_candidate_fold_fields cands (fun _ => ⟨1, .RUNNING⟩) (ElectionRaceRound.empty 1)
  exact ⟨a1, a2, a3, a4, a5⟩

/-- The RUNNING pre-state group of an association list whose every recorded
state is RUNNING is the full key list. -/
theorem runningOf_all_running (cands : List Cand) :
    ElectionRaceRound.runningOf
        (cands.map (fun c => (c, (⟨1, .RUNNING⟩ : ElectionCandidateState))))
      = cands := by
  unfold ElectionRaceRound.runningOf
  induction cands with
  | nil => rfl
  | cons c t ih =>
    simp only [List.map_cons, List.filter_cons]
    rw [if_pos (by simp)]
    simp only [List.map_cons]
    rw [ih]

/-- A round with no ballots gives every candidate score 0. -/
theorem score_empty_ballots (rd : ElectionRaceRound) (h : rd.ballots = []) (c : Cand) :
    rd.get_candidate_score c = 0 := by
  unfold ElectionRaceRound.get_candidate_score ElectionRaceRound.get_candidate_ballots
  rw [h]
  rfl

/-- The race component of the winner-commit fold: winners are appended in
order; rounds, state and seat count are untouched. -/
theorem commit_winner_fold_race (q : ℚ) (scores : Cand → ℚ) :
    ∀ (l : List Cand) (rc : ElectionRace × ElectionRaceRound),
      ((l.foldl (ElectionRace.commit_winner q scores) rc).1).winners
          = rc.1.winners ++ l ∧
      ((l.foldl (ElectionRace.commit_winner q scores) rc).1).state = rc.1.state ∧
      ((l.foldl (ElectionRace.commit_winner q scores) rc).1).rounds = rc.1.rounds := by
  intro l
  induction l with
  | nil => intro rc; simp
  | cons c t ih =>
    intro rc
    obtain ⟨i1, i2, i3⟩ := ih (ElectionRace.commit_winner q scores rc c)
    rw [List.foldl_cons]
    refine ⟨?_, i2, i3⟩
    rw [i1]
    simp [ElectionRace.commit_winner]

/-- The round component of the winner-commit fold is exactly the WON-marking
fold. -/
theorem commit_winner_fold_round (q : ℚ) (scores : Cand → ℚ) :
    ∀ (l : List Cand) (rc : ElectionRace × ElectionRaceRound),
      (l.foldl (ElectionRace.commit_winner q scores) rc).2
        = l.foldl (fun rd c => rd.set_candidate_state c ⟨rd.number, .WON⟩) rc.2 := by
  intro l
  induction l with
  | nil => intro rc; rfl
  | cons c t ih =>
    intro rc
    exact ih _

/-- The race component of the elimination fold: state, winners and rounds are
untouched (only the transfer queue and the round change). -/
theorem eliminate_fold_race (l : List Cand) :
    ∀ (rc : ElectionRace × ElectionRaceRound),
      ((l.foldl ElectionRace.eliminate_step rc).1).winners = rc.1.winners ∧
      ((l.foldl ElectionRace.eliminate_step rc).1).state = rc.1.state ∧
      ((l.foldl ElectionRace.eliminate_step rc).1).rounds = rc.1.rounds := by
  induction l with
  | nil => intro rc; exact ⟨rfl, rfl, rfl⟩
  | cons c t ih =>
    intro rc
    obtain ⟨i1, i2, i3⟩ := ih (ElectionRace.eliminate_step rc c)
    exact ⟨i1, i2, i3⟩

/-- The round component of the elimination fold is exactly the
ELIMINATED-marking fold. -/
theorem eliminate_fold_round (l : List Cand) :
    ∀ (rc : ElectionRace × ElectionRaceRound),
      (l.foldl ElectionRace.eliminate_step rc).2
        = l.foldl (fun rd c => rd.set_candidate_state c ⟨rd.number, .ELIMINATED⟩) rc.2 := by
  induction l with
  | nil => intro rc; rfl
  | cons c t ih =>
    intro rc
    exact ih _

/-- Effect of a state-marking fold on the post-state association list: every
entry keyed in the list is overwritten with the mark, the rest are kept.  The
round number and the other fields are unchanged. -/
theorem set_state_fold_post (k : CandStateKind) :
    ∀ (l : List Cand) (rd : ElectionRaceRound),
      (l.foldl (fun rd c => rd.set_candidate_state c ⟨rd.number, k⟩) rd).post_state
        = rd.post_state.map (fun p => if p.1 ∈ l then (p.1, (⟨rd.number, k⟩ : ElectionCandidateState)) else p) ∧
      (l.foldl (fun rd c => rd.set_candidate_state c ⟨rd.number, k⟩) rd).pre_state
        = rd.pre_state ∧
      (l.foldl (fun rd c => rd.set_candidate_state c ⟨rd.number, k⟩) rd).ballots
        = rd.ballots ∧
      (l.foldl (fun rd c => rd.set_candidate_state c ⟨rd.number, k⟩) rd).number
        = rd.number ∧
      (l.foldl (fun rd c => rd.set_candidate_state c ⟨rd.number, k⟩) rd).state
        = rd.state := by
  intro l
  induction l with
  | nil =>
    intro rd
    refine ⟨?_, rfl, rfl, rfl, rfl⟩
    rw [List.foldl_nil]
    simp
  | cons c t ih =>
    intro rd
    obtain ⟨i1, i2, i3, i4, i5⟩ := ih (rd.set_candidate_state c ⟨rd.number, k⟩)
    have hnum : (rd.set_candidate_state c ⟨rd.number, k⟩).number = rd.number := rfl
    rw [List.foldl_cons]
    refine ⟨?_, i2, i3, i4.trans hnum, i5.trans rfl⟩
    rw [i1, hnum]
    unfold ElectionRaceRound.set_candidate_state
    dsimp only
    rw [List.map_map]
    apply List.map_congr_left
    intro p hp
    by_cases hpc : p.1 = c
    · by_cases hct : c ∈ t
      · simp [Function.comp, hpc, hct]
      · simp [Function.comp, hpc, hct]
    · by_cases hpt : p.1 ∈ t
      · simp [Function.comp, hpc, hpt]
      · simp [Function.comp, hpc, hpt]

/-- Dispatch lemma: the first `run` call creates round 1 with every candidate
RUNNING and enqueues all voters. -/
theorem run_init_round (r : ElectionRace) (h1 : r.state ≠ .COMPLETE) (h2 : r.rounds = []) :
    ElectionRace.run r = ({ r with
      state := .TABULATING
      rounds := [r.candidates.foldl (fun rd c => rd.add_candidate c ⟨1, .RUNNING⟩)
        (ElectionRaceRound.empty 1)]
      transfer_voters := r.voters }, none) := by
  simp only [ElectionRace.run, if_neg h1, h2]
  rfl

/-- Dispatch lemma: with an incomplete latest round and an empty transfer
queue, `run` tabulates. -/
theorem run_dispatch_tabulate (r : ElectionRace) (cur : ElectionRaceRound)
    (h1 : r.state ≠ .COMPLETE) (h2 : r.rounds.getLast? = some cur)
    (h3 : cur.state ≠ .COMPLETE) (h4 : r.transfer_voters = []) :
    ElectionRace.run r = ElectionRace.run_tabulation { r with state := .TABULATING } cur := by
  simp only [ElectionRace.run, if_neg h1]
  have h2' : ({ r with state := RaceState.TABULATING } : ElectionRace).rounds.getLast?
      = some cur := h2
  rw [h2']
  simp only [if_neg h3, h4]

/-- With no voters and at least one running candidate, tabulation completes
the round, marks the race COMPLETE, and proceeds to selection. -/
theorem run_tabulation_no_voters_pos (r : ElectionRace) (cur : ElectionRaceRound)
    (hv : r.voters = []) (hc : cur.running_pre.length ≠ 0) :
    ElectionRace.run_tabulation r cur
      = ElectionRace.tabulation_select_commit { r with state := .COMPLETE } cur.complete
          cur.get_candidate_score cur.running_pre := by
  unfold ElectionRace.run_tabulation
  dsimp only
  rw [if_neg hc, if_pos (by simp [hv])]

/-- With no voters and no running candidate, tabulation completes the round,
marks the race COMPLETE (twice), and proceeds to selection. -/
theorem run_tabulation_no_voters_zero (r : ElectionRace) (cur : ElectionRaceRound)
    (hv : r.voters = []) (hc : cur.running_pre.length = 0) :
    ElectionRace.run_tabulation r cur
      = ElectionRace.tabulation_select_commit { r with state := .COMPLETE } cur.complete
          cur.get_candidate_score cur.running_pre := by
  unfold ElectionRace.run_tabulation
  dsimp only
  rw [if_pos hc, if_pos (by simp [hv])]

/-- Overflow resolution returns the winners unchanged when they already fit
the remaining spots. -/
theorem tie_resolution_ok_guard (mrw : Int) (scores : Cand → ℚ)
    (prior : List ElectionRaceRound) (crw : List Cand)
    (h : (crw.length : Int) ≤ mrw) :
    ElectionRace.tie_resolution mrw scores prior crw = .ok crw := by
  rw [ElectionRace.tie_resolution.eq_def, if_pos h]

/-- Evaluation lemma: the selection-and-commit step once overflow resolution
has returned winners `crw`. -/
theorem tsc_ok (r2 : ElectionRace) (cur2 : ElectionRaceRound) (scores : Cand → ℚ)
    (running : List Cand) (crw : List Cand)
    (h : ElectionRace.tie_resolution ((r2.max_winners : Int) - (r2.winners.length : Int))
          scores r2.rounds.dropLast
          (if ((running.length : Int) ≤ (r2.max_winners : Int) - (r2.winners.length : Int))
           then running
           else (List.insertionSort (fun a b => scores b ≤ scores a) cur2.candidates).filter
             (fun c => c ∈ running ∧ scores c ≥ (r2.quota : ℚ))) = .ok crw) :
    ElectionRace.tabulation_select_commit r2 cur2 scores running =
      if crw.isEmpty then (ElectionRace.run_elimination r2 cur2 scores running, none)
      else
        (fun rc =>
          (fun cur25 =>
            (fun cur3 =>
              ((if cur3.running_post.length = 0
                then { rc.1 with state := RaceState.COMPLETE } else rc.1).updLast cur3, none))
            cur25.complete)
          (if rc.1.winners.length = rc.1.max_winners
           then rc.2.running_post.foldl
             (fun rd c => rd.set_candidate_state c ⟨rd.number, .ELIMINATED⟩) rc.2
           else rc.2))
        (crw.foldl (ElectionRace.commit_winner (r2.quota : ℚ) scores) (r2, cur2)) := by
  unfold ElectionRace.tabulation_select_commit
  dsimp only
  rw [h]

theorem applyOps_cons (r : ElectionRace) (op : Op) (ops : List Op) :
    applyOps r (op :: ops) = applyOps (applyOp r op).1 ops := rfl

/-- Successful candidate additions from the ADDING phase append to the roster
and touch nothing else. -/
theorem apply_adds (cands : List Cand) :
    ∀ r : ElectionRace, r.state = .ADDING → (∀ c ∈ cands, c ∉ r.candidates) →
      cands.Nodup →
      (applyOps r (cands.map Op.add_candidate)).candidates = r.candidates ++ cands ∧
      (applyOps r (cands.map Op.add_candidate)).voters = r.voters ∧
      (applyOps r (cands.map Op.add_candidate)).rounds = r.rounds ∧
      (applyOps r (cands.map Op.add_candidate)).winners = r.winners ∧
      (applyOps r (cands.map Op.add_candidate)).transfer_voters = r.transfer_voters ∧
      (applyOps r (cands.map Op.add_candidate)).state = .ADDING ∧
      (applyOps r (cands.map Op.add_candidate)).max_winners = r.max_winners ∧
      (applyOps r (cands.map Op.add_candidate)).quota_algorithm = r.quota_algorithm := by
  induction cands with
  | nil =>
    intro r hst _ _
    exact ⟨(List.append_nil _).symm, rfl, rfl, rfl, rfl, hst, rfl, rfl⟩
  | cons c t ih =>
    intro r hst hnotin hnd
    rw [List.map_cons, applyOps_cons]
    have hg1 : ¬ (r.state ≠ RaceState.ADDING) := by simp [hst]
    have hg2 : ¬ (c ∈ r.candidates) := hnotin c (List.mem_cons_self c t)
    have hadd : (applyOp r (Op.add_candidate c)).1
        = { r with candidate_id := (c.cid, c) :: r.candidate_id,
                   candidates := r.candidates ++ [c] } := by
      show (ElectionRace.add_candidate r c).1 = _
      unfold ElectionRace.add_candidate
      rw [if_neg hg1, if_neg hg2]
    rw [hadd]
    simp only [List.nodup_cons] at hnd
    obtain ⟨i1, i2, i3, i4, i5, i6, i7, i8⟩ := ih
      { r with candidate_id := (c.cid, c) :: r.candidate_id,
               candidates := r.candidates ++ [c] }
      hst
      (by
        intro c' hc'
        simp only [List.mem_append, List.mem_singleton]
        push_neg
        exact ⟨hnotin c' (List.mem_cons_of_mem c hc'),
          fun hcc => hnd.1 (hcc ▸ hc')⟩)
      hnd.2
    refine ⟨?_, i2, i3, i4, i5, i6, i7, i8⟩
    rw [i1]
    simp

/-- Projection lemma for the complete-if-full race update at the end of the
commit branch: winners and rounds are unchanged by the conditional
COMPLETE marking. -/
theorem ite_race_fields (b : Prop) (inst : Decidable b) (x : ElectionRace) :
    (@ite _ b inst { x with state := RaceState.COMPLETE } x).winners = x.winners ∧
    (@ite _ b inst { x with state := RaceState.COMPLETE } x).rounds = x.rounds ∧
    (@ite _ b inst { x with state := RaceState.COMPLETE } x).transfer_voters
      = x.transfer_voters := by
  cases inst with
  | isTrue h => exact ⟨rfl, rfl, rfl⟩
  | isFalse h => exact ⟨rfl, rfl, rfl⟩

/-- If the race was already COMPLETE, the conditional COMPLETE marking leaves
it COMPLETE. -/
theorem ite_race_state (b : Prop) (inst : Decidable b) (x : ElectionRace)
    (hx : x.state = RaceState.COMPLETE) :
    (@ite _ b inst { x with state := RaceState.COMPLETE } x).state
      = RaceState.COMPLETE := by
  cases inst with
  | isTrue h => rfl
  | isFalse h => exact hx

/-- The elimination branch touches neither winners nor race state, and ends by
replacing the latest round with a COMPLETE one. -/
theorem run_elimination_fields (r : ElectionRace) (cur : ElectionRaceRound)
    (scores : Cand → ℚ) (running : List Cand) :
    (ElectionRace.run_elimination r cur scores running).winners = r.winners ∧
    (ElectionRace.run_elimination r cur scores running).state = r.state ∧
    (ElectionRace.run_elimination r cur scores running).rounds.map ElectionRaceRound.state
        = r.rounds.dropLast.map ElectionRaceRound.state ++ [RoundState.COMPLETE] := by
  unfold ElectionRace.run_elimination
  dsimp only
  refine ⟨?_, ?_, ?_⟩
  · simp only [ElectionRace.updLast]
    rw [(eliminate_fold_race _ _).1]
  · simp only [ElectionRace.updLast]
    rw [(eliminate_fold_race _ _).2.1]
  · simp only [ElectionRace.updLast]
    rw [List.map_append, (eliminate_fold_race _ _).2.2]
    rfl

/-- Selection-and-commit when the collapse rule applies (the running
candidates fit the remaining spots): every running candidate is appended to
the winners, no error is raised, the race stays COMPLETE if it already was,
and the latest round is replaced by a COMPLETE one. -/
theorem tsc_collapse_fields (r2 : ElectionRace) (cur2 : ElectionRaceRound)
    (scores : Cand → ℚ) (running : List Cand)
    (hlen : ((running.length : Int) ≤ (r2.max_winners : Int) - (r2.winners.length : Int)))
    (hst : r2.state = RaceState.COMPLETE) :
    ((ElectionRace.tabulation_select_commit r2 cur2 scores running).1).winners
        = r2.winners ++ running ∧
    ((ElectionRace.tabulation_select_commit r2 cur2 scores running).1).state
        = RaceState.COMPLETE ∧
    ((ElectionRace.tabulation_select_commit r2 cur2 scores running).1).rounds.map
        ElectionRaceRound.state
        = r2.rounds.dropLast.map ElectionRaceRound.state ++ [RoundState.COMPLETE] ∧
    (ElectionRace.tabulation_select_commit r2 cur2 scores running).2 = none := by
  have hok : ElectionRace.tie_resolution
      ((r2.max_winners : Int) - (r2.winners.length : Int)) scores r2.rounds.dropLast
      (if ((running.length : Int) ≤ (r2.max_winners : Int) - (r2.winners.length : Int))
       then running
       else (List.insertionSort (fun a b => scores b ≤ scores a) cur2.candidates).filter
         (fun c => c ∈ running ∧ scores c ≥ (r2.quota : ℚ))) = .ok running := by
    rw [if_pos hlen]
    exact tie_resolution_ok_guard _ _ _ _ hlen
  rw [tsc_ok r2 cur2 scores running running hok]
  by_cases hr : running = []
  · subst hr
    rw [if_pos (show (List.isEmpty []) = true from rfl)]
    obtain ⟨g1, g2, g3⟩ := run_elimination_fields r2 cur2 scores []
    exact ⟨by rw [List.append_nil]; exact g1, g2.trans hst, g3, rfl⟩
  · rw [if_neg (by simpa using hr)]
    dsimp only
    obtain ⟨w1, w2, w3⟩ :=
      commit_winner_fold_race (r2.quota : ℚ) scores running (r2, cur2)
    refine ⟨?_, ?_, ?_, rfl⟩
    · simp only [ElectionRace.updLast]
      rw [(ite_race_fields _ _ _).1]
      exact w1
    · simp only [ElectionRace.updLast]
      exact ite_race_state _ _ _ (w2.trans hst)
    · simp only [ElectionRace.updLast]
      rw [List.map_append, (ite_race_fields _ _ _).2.1, w3]
      rfl

/-- Selection-and-commit when the running candidates exceed the remaining
spots but nobody meets the quota: no winner is committed, no error is raised,
the race stays COMPLETE if it already was, and the latest round is replaced by
a COMPLETE one. -/
theorem tsc_no_quota_fields (r2 : ElectionRace) (cur2 : ElectionRaceRound)
    (scores : Cand → ℚ) (running : List Cand)
    (hgt : ¬ ((running.length : Int) ≤ (r2.max_winners : Int) - (r2.winners.length : Int)))
    (hmrw : 0 ≤ (r2.max_winners : Int) - (r2.winners.length : Int))
    (hsc : ∀ c, scores c < (r2.quota : ℚ))
    (hst : r2.state = RaceState.COMPLETE) :
    ((ElectionRace.tabulation_select_commit r2 cur2 scores running).1).winners
        = r2.winners ∧
    ((ElectionRace.tabulation_select_commit r2 cur2 scores running).1).state
        = RaceState.COMPLETE ∧
    ((ElectionRace.tabulation_select_commit r2 cur2 scores running).1).rounds.map
        ElectionRaceRound.state
        = r2.rounds.dropLast.map ElectionRaceRound.state ++ [RoundState.COMPLETE] ∧
    (ElectionRace.tabulation_select_commit r2 cur2 scores running).2 = none := by
  have hfil : (List.insertionSort (fun a b => scores b ≤ scores a) cur2.candidates).filter
      (fun c => c ∈ running ∧ scores c ≥ (r2.quota : ℚ)) = [] := by
    rw [List.filter_eq_nil_iff]
    intro c hc
    simp only [decide_eq_true_eq, not_and]
    intro _
    exact not_le.mpr (hsc c)
  have hok : ElectionRace.tie_resolution
      ((r2.max_winners : Int) - (r2.winners.length : Int)) scores r2.rounds.dropLast
      (if ((running.length : Int) ≤ (r2.max_winners : Int) - (r2.winners.length : Int))
       then running
       else (List.insertionSort (fun a b => scores b ≤ scores a) cur2.candidates).filter
         (fun c => c ∈ running ∧ scores c ≥ (r2.quota : ℚ))) = .ok [] := by
    rw [if_neg hgt, hfil]
    exact tie_resolution_ok_guard _ _ _ _ (by simpa using hmrw)
  rw [tsc_ok r2 cur2 scores running [] hok]
  rw [if_pos (show (List.isEmpty []) = true from rfl)]
  obtain ⟨g1, g2, g3⟩ := run_elimination_fields r2 cur2 scores running
  exact ⟨g1, g2.trans hst, g3, rfl⟩

theorem applyOps_append_ops (r : ElectionRace) (l1 l2 : List Op) :
    applyOps r (l1 ++ l2) = applyOps (applyOps r l1) l2 := by
  simp [applyOps, List.foldl_append]

/-- The single candidate of the C4 counterexample race. -/
def c4A : Cand := ⟨"a", "A", "p"⟩

/-- Round 1 of the C4 counterexample race, as created by the first `run`
call: the only candidate RUNNING, no ballots. -/
def c4Round1 : ElectionRaceRound :=
  { number := 1, pre_state := [(c4A, ⟨1, .RUNNING⟩)],
    post_state := [(c4A, ⟨1, .RUNNING⟩)], ballots := [], state := .INCOMPLETE }

/-- The C4 counterexample race after registering one candidate and creating
round 1: one seat, Droop quota, no voters at all. -/
def c4Race1 : ElectionRace :=
  { max_winners := 1, quota_algorithm := .droop, candidates := [c4A],
    candidate_id := [("a", c4A)], voters := [], voter_data := [],
    rounds := [c4Round1], winners := [], transfer_voters := [],
    state := .TABULATING }

/-- The final state of the C4 counterexample race: the zero-vote candidate has
WON. -/
def c4Race2 : ElectionRace :=
  { max_winners := 1, quota_algorithm := .droop, candidates := [c4A],
    candidate_id := [("a", c4A)], voters := [], voter_data := [],
    rounds := [{ number := 1, pre_state := [(c4A, ⟨1, .RUNNING⟩)],
                 post_state := [(c4A, ⟨1, .WON⟩)], ballots := [],
                 state := .COMPLETE }],
    winners := [c4A], transfer_voters := [], state := .COMPLETE }

/-- The tabulating `run` call of the C4 counterexample: the missing `return`
after the zero-voter check lets control reach winner selection, where the
collapse rule commits the zero-vote candidate as a winner. -/
theorem c4_second_run : ElectionRace.run c4Race1 = (c4Race2, none) := by
  rw [run_dispatch_tabulate c4Race1 c4Round1 (by decide) rfl (by decide) rfl]
  rw [run_tabulation_no_voters_pos _ _ rfl (by decide)]
  unfold ElectionRace.tabulation_select_commit
  dsimp only
  rw [ElectionRace.tie_resolution.eq_def]
  rfl

/-- C4 counterexample: a race with one candidate, one seat, the Droop quota
and an empty voter list.  The claim says every race with no voters ends with
no winners; this race ends COMPLETE in round 1 with the zero-vote candidate
in the winners list, because the zero-voter short-circuit completes the round
and race but does not return, so control falls through to winner selection
and the collapse rule (`running ≤ remaining spots`) commits every running
candidate. -/
theorem no_voters_no_winners_cex :
    (applyOps (ElectionRace.init 1 QuotaAlg.droop)
      [Op.add_candidate c4A, Op.run, Op.run]).winners = [c4A] ∧
    (applyOps (ElectionRace.init 1 QuotaAlg.droop)
      [Op.add_candidate c4A, Op.run, Op.run]).state = RaceState.COMPLETE ∧
    (applyOps (ElectionRace.init 1 QuotaAlg.droop)
      [Op.add_candidate c4A, Op.run, Op.run]).voters = [] := by
  have h0 : applyOps (ElectionRace.init 1 QuotaAlg.droop)
      [Op.add_candidate c4A, Op.run, Op.run] = (ElectionRace.run c4Race1).1 := rfl
  rw [h0, c4_second_run]
  exact ⟨rfl, rfl, rfl⟩

/-- C4 (amended): for a race with no voters (any nonzero seat count, either
quota algorithm, any duplicate-free candidate roster), the second `run` call
tabulates round 1, completes it, and sets the race COMPLETE — but the race
does not end winnerless: because the zero-voter short-circuit does not
return, winner selection still runs, and the collapse rule commits every
candidate as a zero-vote winner whenever the roster fits the seat count;
only when the roster exceeds the seat count does the quota filter leave no
winner (no zero score meets the quota, which is at least 1). -/
theorem no_voters_tabulation (cands : List Cand) (mw : Nat) (alg : QuotaAlg)
    (hmw : 1 ≤ mw) (hnd : cands.Nodup) :
    (applyOps (ElectionRace.init mw alg)
        (cands.map Op.add_candidate ++ [Op.run, Op.run])).state
      = RaceState.COMPLETE ∧
    (applyOps (ElectionRace.init mw alg)
        (cands.map Op.add_candidate ++ [Op.run, Op.run])).rounds.map
        ElectionRaceRound.state = [RoundState.COMPLETE] ∧
    (applyOps (ElectionRace.init mw alg)
        (cands.map Op.add_candidate ++ [Op.run, Op.run])).winners
      = (if cands.length ≤ mw then cands else []) := by
  obtain ⟨e1, e2, e3, e4, e5, e6, e7, e8⟩ :=
    apply_adds cands (ElectionRace.init mw alg) rfl
      (by intro c _; exact List.not_mem_nil c) hnd
  rw [applyOps_append_ops]
  set r0 := applyOps (ElectionRace.init mw alg) (cands.map Op.add_candidate) with hr0
  simp only [ElectionRace.init, List.nil_append] at e1 e2 e3 e4 e5 e7 e8
  have hsplit : applyOps r0 [Op.run, Op.run]
      = (ElectionRace.run (ElectionRace.run r0).1).1 := rfl
  rw [hsplit]
  have h1 := run_init_round r0 (by rw [e6]; decide) e3
  have h1' : (ElectionRace.run r0).1 = { r0 with
      state := RaceState.TABULATING
      rounds := [r0.candidates.foldl
        (fun rd c => rd.add_candidate c ⟨1, .RUNNING⟩) (ElectionRaceRound.empty 1)]
      transfer_voters := r0.voters } := by rw [h1]
  rw [h1']
  set rd1 := r0.candidates.foldl
    (fun rd c => rd.add_candidate c ⟨1, .RUNNING⟩) (ElectionRaceRound.empty 1) with hrd1
  have hpre : rd1.pre_state
      = cands.map (fun c => (c, (⟨1, .RUNNING⟩ : ElectionCandidateState))) := by
    rw [hrd1, e1]; exact (build_round_fields cands).1
  have hball : rd1.ballots = [] := by
    rw [hrd1, e1]; exact (build_round_fields cands).2.2.1
  have hstate1 : rd1.state = .INCOMPLETE := by
    rw [hrd1, e1]; exact (build_round_fields cands).2.2.2.2
  have hrp : rd1.running_pre = cands := by
    show ElectionRaceRound.runningOf rd1.pre_state = cands
    rw [hpre]; exact runningOf_all_running cands
  set R1 := { r0 with
      state := RaceState.TABULATING
      rounds := [rd1]
      transfer_voters := r0.voters } with hR1
  have h2 := run_dispatch_tabulate R1 rd1
    (fun h => RaceState.noConfusion h) rfl (by rw [hstate1]; decide) e2
  rw [h2]
  have h3 : ElectionRace.run_tabulation { R1 with state := RaceState.TABULATING } rd1
      = ElectionRace.tabulation_select_commit
        { { R1 with state := RaceState.TABULATING } with state := RaceState.COMPLETE }
        rd1.complete rd1.get_candidate_score rd1.running_pre := by
    by_cases hc : cands = []
    · exact run_tabulation_no_voters_zero _ _ e2 (by rw [hrp, hc]; rfl)
    · exact run_tabulation_no_voters_pos _ _ e2
        (by rw [hrp]; simpa using (List.length_pos.mpr hc).ne')
  rw [h3]
  set R2 := { { R1 with state := RaceState.TABULATING }
    with state := RaceState.COMPLETE } with hR2
  have hW : R2.winners = [] := e4
  have hMW : R2.max_winners = mw := e7
  have hSt : R2.state = RaceState.COMPLETE := rfl
  have hRnds : R2.rounds = [rd1] := rfl
  have hQ : 1 ≤ R2.quota := quota_pos R2
  have hScores : ∀ c, rd1.get_candidate_score c = 0 :=
    fun c => score_empty_ballots rd1 hball c
  by_cases hle : cands.length ≤ mw
  · obtain ⟨f1, f2, f3, f4⟩ := tsc_collapse_fields R2 rd1.complete
      rd1.get_candidate_score rd1.running_pre
      (by rw [hrp, hMW, hW]; simp only [List.length_nil]; push_cast; omega) hSt
    refine ⟨f2, ?_, ?_⟩
    · rw [f3, hRnds]; rfl
    · rw [f1, hW, hrp, if_pos hle, List.nil_append]
  · obtain ⟨f1, f2, f3, f4⟩ := tsc_no_quota_fields R2 rd1.complete
      rd1.get_candidate_score rd1.running_pre
      (by rw [hrp, hMW, hW]; simp only [List.length_nil]; push_cast; omega)
      (by rw [hMW, hW]; simp)
      (by
        intro c
        rw [hScores c]
        exact_mod_cast Nat.lt_of_lt_of_le Nat.zero_lt_one hQ)
      hSt
    refine ⟨f2, ?_, ?_⟩
    · rw [f3, hRnds]; rfl
    · rw [f1, hW, if_neg hle]

/-- Witness for the amended C4 theorem: two candidates, three seats, Droop
quota, no voters — both candidates end up as zero-vote winners. -/
theorem no_voters_tabulation_witness :
    ((1 : Nat) ≤ 3 ∧ ([⟨"a", "A", "p"⟩, ⟨"b", "B", "q"⟩] : List Cand).Nodup) ∧
    ((applyOps (ElectionRace.init 3 QuotaAlg.droop)
        (([⟨"a", "A", "p"⟩, ⟨"b", "B", "q"⟩] : List Cand).map Op.add_candidate
          ++ [Op.run, Op.run])).state = RaceState.COMPLETE ∧
     (applyOps (ElectionRace.init 3 QuotaAlg.droop)
        (([⟨"a", "A", "p"⟩, ⟨"b", "B", "q"⟩] : List Cand).map Op.add_candidate
          ++ [Op.run, Op.run])).rounds.map ElectionRaceRound.state
        = [RoundState.COMPLETE] ∧
     (applyOps (ElectionRace.init 3 QuotaAlg.droop)
        (([⟨"a", "A", "p"⟩, ⟨"b", "B", "q"⟩] : List Cand).map Op.add_candidate
          ++ [Op.run, Op.run])).winners
        = (if ([⟨"a", "A", "p"⟩, ⟨"b", "B", "q"⟩] : List Cand).length ≤ 3
           then ([⟨"a", "A", "p"⟩, ⟨"b", "B", "q"⟩] : List Cand) else [])) :=
  ⟨⟨by decide, by decide⟩,
    no_voters_tabulation [⟨"a", "A", "p"⟩, ⟨"b", "B", "q"⟩] 3 QuotaAlg.droop
      (by decide) (by decide)⟩

/-- Tie resolution on an empty winner list, when it succeeds, returns the
empty list. -/
theorem tie_resolution_nil (mrw : Int) (scores : Cand → ℚ)
    (prior : List ElectionRaceRound) (out : List Cand)
    (h : ElectionRace.tie_resolution mrw scores prior [] = .ok out) : out = [] := by
  rw [ElectionRace.tie_resolution.eq_def] at h
  by_cases hg : ((List.length ([] : List Cand) : Int) ≤ mrw)
  · rw [if_pos hg] at h
    injection h with h
    exact h.symm
  · rw [if_neg hg] at h
    rw [dif_pos (by simp)] at h
    exact Except.noConfusion h

/-- The inner tie-resolution loop returns winner lists that fit the remaining
spots: its only success exit is the `≤ max_round_winners` guard. -/
theorem tie_resolution_inner_ok_le (mrw : Int) :
    ∀ (n : Nat) (prev : ElectionRaceRound) (rest : List ElectionRaceRound)
      (lowest crw out : List Cand),
      lowest.length + rest.length ≤ n →
      ElectionRace.tie_resolution_inner mrw prev rest lowest crw = .ok out →
      (out.length : Int) ≤ mrw := by
  intro n
  induction n using Nat.strong_induction_on with
  | _ n ih =>
    intro prev rest lowest crw out hn
    rw [ElectionRace.tie_resolution_inner.eq_def]
    split
    · next hguard =>
      intro hout
      injection hout with hout
      rw [← hout]
      exact hguard
    · next hguard =>
      dsimp only
      split
      · intro hout
        exact Except.noConfusion hout
      · next h2 =>
        split
        · next hneq =>
          intro hout
          set pl := List.insertionSort
            (fun x y => prev.get_candidate_score y ≤ prev.get_candidate_score x) lowest with hpl
          have ha : pl.get ⟨pl.length - 1, by omega⟩ ∈ lowest :=
            (List.perm_insertionSort _ lowest).subset (List.get_mem pl _ _)
          have hlt : (lowest.erase (pl.get ⟨pl.length - 1, by omega⟩)).length + rest.length < n := by
            have hx2 : (lowest.erase (pl.get ⟨pl.length - 1, by omega⟩)).length
                = lowest.length - 1 := List.length_erase_of_mem ha
            have hx3 : 0 < lowest.length := List.length_pos.mpr (List.ne_nil_of_mem ha)
            omega
          exact ih _ hlt prev rest _ _ out (le_refl _) hout
        · split
          · intro hout
            exact Except.noConfusion hout
          · next hr =>
            intro hout
            have hlt : lowest.length + rest.dropLast.length < n := by
              have h4 : 0 < rest.length := List.length_pos.mpr hr
              have h5 : rest.dropLast.length = rest.length - 1 := List.length_dropLast rest
              omega
            exact ih _ hlt _ rest.dropLast _ _ out (le_refl _) hout

/-- Whatever list tie resolution is given, a successful result fits the
remaining spots. -/
theorem tie_resolution_ok_le (mrw : Int) (scores : Cand → ℚ)
    (prior : List ElectionRaceRound) (crw out : List Cand)
    (hout : ElectionRace.tie_resolution mrw scores prior crw = .ok out) :
    (out.length : Int) ≤ mrw := by
  suffices h : ∀ (n : Nat) (crw : List Cand), crw.length ≤ n →
      ∀ out, ElectionRace.tie_resolution mrw scores prior crw = .ok out →
        (out.length : Int) ≤ mrw from h crw.length crw (le_refl _) out hout
  intro n
  induction n using Nat.strong_induction_on with
  | _ n ih =>
    intro crw hn out
    rw [ElectionRace.tie_resolution.eq_def]
    split
    · next hg =>
      intro h
      injection h with h
      rw [← h]
      exact hg
    · next hg =>
      split
      · intro h
        exact Except.noConfusion h
      · next h2 =>
        dsimp only
        split
        · next hneq =>
          intro h
          have hlt : crw.dropLast.length < n := by
            rw [List.length_dropLast]
            omega
          exact ih _ hlt crw.dropLast (le_refl _) out h
        · split
          · intro h
            exact Except.noConfusion h
          · next hp =>
            intro h
            exact tie_resolution_inner_ok_le mrw _ (prior.getLast hp) prior.dropLast
              _ crw out (le_refl _) h

/-- Marking a set of candidates with a non-RUNNING state filters them out of
the RUNNING group and touches nobody else. -/
theorem runningOf_mark (k : CandStateKind) (hk : ¬ k = CandStateKind.RUNNING)
    (num : Nat) (l : List Cand) :
    ∀ post : List (Cand × ElectionCandidateState),
      ElectionRaceRound.runningOf (post.map
        (fun p => if p.1 ∈ l then (p.1, (⟨num, k⟩ : ElectionCandidateState)) else p))
      = (ElectionRaceRound.runningOf post).filter (fun c => c ∉ l) := by
  intro post
  induction post with
  | nil => rfl
  | cons p t ih =>
    unfold ElectionRaceRound.runningOf at ih ⊢
    by_cases hp : p.1 ∈ l <;> by_cases hr : p.2.state = CandStateKind.RUNNING <;>
      simp [hp, hr, hk, ih]

/-- A round with no ballots has empty buckets. -/
theorem get_candidate_ballots_nil (rd : ElectionRaceRound) (h : rd.ballots = [])
    (b : Option Cand) : rd.get_candidate_ballots b = [] := by
  unfold ElectionRaceRound.get_candidate_ballots
  rw [h]
  rfl

/-- Committing winners in a round without ballots moves no voters: the
transfer queue, the voter data and the (empty) ballots are unchanged. -/
theorem commit_fold_empty (q : ℚ) (scores : Cand → ℚ) :
    ∀ (l : List Cand) (rc : ElectionRace × ElectionRaceRound), rc.2.ballots = [] →
      ((l.foldl (ElectionRace.commit_winner q scores) rc).1).transfer_voters
          = rc.1.transfer_voters ∧
      ((l.foldl (ElectionRace.commit_winner q scores) rc).2).ballots = [] := by
  intro l
  induction l with
  | nil => intro rc h; exact ⟨rfl, h⟩
  | cons c t ih =>
    intro rc h
    rw [List.foldl_cons]
    have hb : (ElectionRace.commit_winner q scores rc c).2.ballots = [] := h
    obtain ⟨i1, i2⟩ := ih (ElectionRace.commit_winner q scores rc c) hb
    refine ⟨?_, i2⟩
    rw [i1]
    show (rc.1.transfer_voters
        ++ ((rc.2.set_candidate_state c ⟨rc.2.number, .WON⟩).get_candidate_ballots
            (some c)).map Ballot.voter) = rc.1.transfer_voters
    rw [get_candidate_ballots_nil (rc.2.set_candidate_state c ⟨rc.2.number, .WON⟩) h]
    exact List.append_nil _

/-- Eliminating candidates in a round without ballots moves no voters
either. -/
theorem eliminate_fold_empty :
    ∀ (l : List Cand) (rc : ElectionRace × ElectionRaceRound), rc.2.ballots = [] →
      ((l.foldl ElectionRace.eliminate_step rc).1).transfer_voters
          = rc.1.transfer_voters ∧
      ((l.foldl ElectionRace.eliminate_step rc).2).ballots = [] := by
  intro l
  induction l with
  | nil => intro rc h; exact ⟨rfl, h⟩
  | cons c t ih =>
    intro rc h
    rw [List.foldl_cons]
    have hb : (ElectionRace.eliminate_step rc c).2.ballots = [] := h
    obtain ⟨i1, i2⟩ := ih (ElectionRace.eliminate_step rc c) hb
    refine ⟨?_, i2⟩
    rw [i1]
    show (rc.1.transfer_voters
        ++ ((rc.2.set_candidate_state c ⟨rc.2.number, .ELIMINATED⟩).get_candidate_ballots
            (some c)).map Ballot.voter) = rc.1.transfer_voters
    rw [get_candidate_ballots_nil
      (rc.2.set_candidate_state c ⟨rc.2.number, .ELIMINATED⟩) h]
    exact List.append_nil _

/-- Invariant preservation through the selection-and-commit step: the winner
list stays within the seat count, a COMPLETE result always leaves a latest
round with nobody RUNNING, a voterless race moves no voters and keeps every
round ballotless, and every round's post-RUNNING group stays inside its
pre-RUNNING group. -/
theorem tsc_inv (r2 : ElectionRace) (cur2 : ElectionRaceRound)
    (scores : Cand → ℚ) (running : List Cand)
    (hW : r2.winners.length ≤ r2.max_winners)
    (hrun : running = cur2.running_pre)
    (hsub : ∀ c, c ∈ cur2.running_post → c ∈ cur2.running_pre)
    (hCmpl : r2.state = RaceState.COMPLETE → running = [] ∨ ∀ c, scores c = 0)
    (hBall : r2.voters = [] → r2.transfer_voters = [] ∧ cur2.ballots = []
      ∧ ∀ rd ∈ r2.rounds.dropLast, rd.ballots = [])
    (hPrev : ∀ rd ∈ r2.rounds.dropLast, ∀ c, c ∈ rd.running_post → c ∈ rd.running_pre) :
    ((ElectionRace.tabulation_select_commit r2 cur2 scores running).1).winners.length
        ≤ r2.max_winners ∧
    (((ElectionRace.tabulation_select_commit r2 cur2 scores running).1).state
        = RaceState.COMPLETE →
      ∃ rd, ((ElectionRace.tabulation_select_commit r2 cur2 scores running).1).rounds.getLast?
          = some rd ∧ rd.running_post = []) ∧
    (r2.voters = [] →
      ((ElectionRace.tabulation_select_commit r2 cur2 scores running).1).transfer_voters = []
      ∧ ∀ rd ∈ ((ElectionRace.tabulation_select_commit r2 cur2 scores running).1).rounds,
          rd.ballots = []) ∧
    (∀ rd ∈ ((ElectionRace.tabulation_select_commit r2 cur2 scores running).1).rounds,
      ∀ c, c ∈ rd.running_post → c ∈ rd.running_pre) := by
  have hmrw0 : (0 : Int) ≤ (r2.max_winners : Int) - (r2.winners.length : Int) := by
    simp only [sub_nonneg]
    exact_mod_cast hW
  have hqpos : (0 : ℚ) < (r2.quota : ℚ) := by
    exact_mod_cast Nat.lt_of_lt_of_le Nat.zero_lt_one (quota_pos r2)
  set sel := (if ((running.length : Int) ≤ (r2.max_winners : Int) - (r2.winners.length : Int))
      then running
      else (List.insertionSort (fun a b => scores b ≤ scores a) cur2.candidates).filter
        (fun c => c ∈ running ∧ scores c ≥ (r2.quota : ℚ))) with hseldef
  have hComplOk : r2.state = RaceState.COMPLETE →
      ∃ out, ElectionRace.tie_resolution
          ((r2.max_winners : Int) - (r2.winners.length : Int)) scores r2.rounds.dropLast sel
        = .ok out ∧ (out = [] ∨ out = running) := by
    intro hst2
    rcases hCmpl hst2 with hr0 | hsc0
    · have hsel : sel = [] := by
        rw [hseldef]
        split
        · exact hr0
        · rw [List.filter_eq_nil_iff]
          intro c hc
          simp only [decide_eq_true_eq, not_and]
          intro hcr
          rw [hr0] at hcr
          exact absurd hcr (List.not_mem_nil c)
      exact ⟨[], by
        rw [hsel]
        exact tie_resolution_ok_guard _ _ _ _ (by simpa using hmrw0), Or.inl rfl⟩
    · by_cases hcol : ((running.length : Int)
          ≤ (r2.max_winners : Int) - (r2.winners.length : Int))
      · have hsel : sel = running := by rw [hseldef, if_pos hcol]
        exact ⟨running, by
          rw [hsel]
          exact tie_resolution_ok_guard _ _ _ _ hcol, Or.inr rfl⟩
      · have hsel : sel = [] := by
          rw [hseldef, if_neg hcol, List.filter_eq_nil_iff]
          intro c hc
          simp only [decide_eq_true_eq, not_and]
          intro hcr
          rw [ge_iff_le, not_le, hsc0 c]
          exact hqpos
        exact ⟨[], by
          rw [hsel]
          exact tie_resolution_ok_guard _ _ _ _ (by simpa using hmrw0), Or.inl rfl⟩
  cases htr : ElectionRace.tie_resolution
      ((r2.max_winners : Int) - (r2.winners.length : Int)) scores r2.rounds.dropLast sel with
  | error e =>
    rw [tsc_error r2 cur2 scores running e htr]
    refine ⟨hW, ?_, ?_, ?_⟩
    · intro hfin
      have hst2 : r2.state = RaceState.COMPLETE := hfin
      obtain ⟨out, hok, _⟩ := hComplOk hst2
      rw [htr] at hok
      exact Except.noConfusion hok
    · intro hv
      obtain ⟨h1, h2, h3⟩ := hBall hv
      refine ⟨h1, ?_⟩
      intro rd hrd
      simp only [ElectionRace.updLast] at hrd
      rcases List.mem_append.mp hrd with h | h
      · exact h3 rd h
      · rw [List.mem_singleton.mp h]
        exact h2
    · intro rd hrd c hc
      simp only [ElectionRace.updLast] at hrd
      rcases List.mem_append.mp hrd with h | h
      · exact hPrev rd h c hc
      · rw [List.mem_singleton.mp h] at hc ⊢
        exact hsub c hc
  | ok crw =>
    rw [tsc_ok r2 cur2 scores running crw htr]
    by_cases hcrw : crw = []
    · subst hcrw
      rw [if_pos (show (List.isEmpty ([] : List Cand)) = true from rfl)]
      dsimp only
      have hkey : (ElectionRace.run_elimination r2 cur2 scores running).state = r2.state →
          (r2.state = RaceState.COMPLETE →
            ∃ rd, (ElectionRace.run_elimination r2 cur2 scores running).rounds.getLast?
                = some rd ∧ rd.running_post = []) := by
        intro _ hst2
        unfold ElectionRace.run_elimination
        dsimp only
        simp only [ElectionRace.updLast]
        rw [eliminate_fold_round]
        refine ⟨_, by rw [(eliminate_fold_race _ _).2.2]; exact List.getLast?_concat _, ?_⟩
        have hcp : ∀ rd : ElectionRaceRound, rd.complete.running_post = rd.running_post :=
          fun rd => rfl
        rw [hcp]
        show ElectionRaceRound.runningOf _ = []
        rw [(set_state_fold_post _ _ _).1]
        rw [runningOf_mark CandStateKind.ELIMINATED (by decide)]
        rw [List.filter_eq_nil_iff]
        intro c hc
        simp only [decide_not, Bool.not_eq_true', decide_eq_false_iff_not, not_not]
        have hcr : c ∈ running := by
          rw [hrun]
          exact hsub c hc
        rcases hCmpl hst2 with hr0 | hsc0
        · rw [hr0] at hcr
          exact absurd hcr (List.not_mem_nil c)
        · have hce : c ∈ running.filter (fun c => scores c = 0) :=
            List.mem_filter.mpr ⟨hcr, by simp [hsc0 c]⟩
          split
          · exact hce
          · exact List.mem_append_left _ hce
      refine ⟨?_, ?_, ?_, ?_⟩
      · rw [(run_elimination_fields r2 cur2 scores running).1]
        exact hW
      · intro hfin
        exact hkey (run_elimination_fields r2 cur2 scores running).2.1
          (((run_elimination_fields r2 cur2 scores running).2.1).symm.trans hfin)
      · intro hv
        obtain ⟨h1, h2, h3⟩ := hBall hv
        constructor
        · show (ElectionRace.run_elimination r2 cur2 scores running).transfer_voters = []
          unfold ElectionRace.run_elimination
          dsimp only
          simp only [ElectionRace.updLast]
          rw [(eliminate_fold_empty _ (r2, cur2) h2).1]
          exact h1
        · intro rd hrd
          revert hrd
          show rd ∈ (ElectionRace.run_elimination r2 cur2 scores running).rounds → _
          unfold ElectionRace.run_elimination
          dsimp only
          simp only [ElectionRace.updLast]
          intro hrd
          rcases List.mem_append.mp hrd with h | h
          · exact h3 rd (by rw [← (eliminate_fold_race _ (r2, cur2)).2.2]; exact h)
          · rw [List.mem_singleton.mp h]
            exact (eliminate_fold_empty _ (r2, cur2) h2).2
      · intro rd hrd c hc
        revert hrd
        show rd ∈ (ElectionRace.run_elimination r2 cur2 scores running).rounds → _
        unfold ElectionRace.run_elimination
        dsimp only
        simp only [ElectionRace.updLast]
        intro hrd
        rcases List.mem_append.mp hrd with h | h
        · exact hPrev rd (by rw [← (eliminate_fold_race _ (r2, cur2)).2.2]; exact h) c hc
        · have hrdval := List.mem_singleton.mp h
          subst hrdval
          revert hc
          rw [eliminate_fold_round]
          intro hc
          have hc' : c ∈ ElectionRaceRound.runningOf
              ((List.foldl (fun rd c => rd.set_candidate_state c ⟨rd.number,
                CandStateKind.ELIMINATED⟩) (r2, cur2).2 _)).post_state := hc
          rw [(set_state_fold_post _ _ _).1,
            runningOf_mark CandStateKind.ELIMINATED (by decide)] at hc'
          have hc2 := (List.mem_filter.mp hc').1
          have hcp2 : ∀ rd : ElectionRaceRound, rd.complete.pre_state = rd.pre_state :=
            fun _ => rfl
          show c ∈ ElectionRaceRound.runningOf _
          rw [hcp2, (set_state_fold_post _ _ _).2.1]
          exact hsub c hc2
    · have hne : ¬ (crw.isEmpty = true) := by
        cases crw with
        | nil => exact absurd rfl hcrw
        | cons a t => simp
      rw [if_neg hne]
      dsimp only
      obtain ⟨w1, w2, w3⟩ := commit_winner_fold_race (r2.quota : ℚ) scores crw (r2, cur2)
      set rc := crw.foldl (ElectionRace.commit_winner (r2.quota : ℚ) scores) (r2, cur2)
        with hrc
      set cur25 := if rc.1.winners.length = rc.1.max_winners
        then rc.2.running_post.foldl
          (fun rd c => rd.set_candidate_state c ⟨rd.number, .ELIMINATED⟩) rc.2
        else rc.2 with hc25
      set cur3 := cur25.complete with hc3d
      have hrcw : rc.1.winners = r2.winners ++ crw := w1
      have hrcst : rc.1.state = r2.state := w2
      have hrcrounds : rc.1.rounds = r2.rounds := w3
      have hrd2 : rc.2 = crw.foldl
          (fun rd c => rd.set_candidate_state c ⟨rd.number, CandStateKind.WON⟩) cur2 :=
        commit_winner_fold_round _ _ crw (r2, cur2)
      obtain ⟨p1, p2, p3, p4, p5⟩ := set_state_fold_post CandStateKind.WON crw cur2
      have hpostrc2 : ElectionRaceRound.runningOf rc.2.post_state
          = (ElectionRaceRound.runningOf cur2.post_state).filter (fun c => c ∉ crw) := by
        rw [hrd2, p1, runningOf_mark CandStateKind.WON (by decide)]
      have hpre25 : cur25.pre_state = cur2.pre_state := by
        rw [hc25]
        split
        · rw [(set_state_fold_post _ _ _).2.1, hrd2, p2]
        · rw [hrd2, p2]
      have hpost25 : ∀ c, c ∈ cur25.running_post →
          c ∈ (ElectionRaceRound.runningOf cur2.post_state).filter (fun c => c ∉ crw) := by
        intro c hc
        rw [hc25] at hc
        revert hc
        split
        · intro hc
          have hc' : c ∈ ElectionRaceRound.runningOf
              ((rc.2.running_post.foldl (fun rd c => rd.set_candidate_state c
                ⟨rd.number, CandStateKind.ELIMINATED⟩) rc.2)).post_state := hc
          rw [(set_state_fold_post _ _ _).1,
            runningOf_mark CandStateKind.ELIMINATED (by decide)] at hc'
          have := (List.mem_filter.mp hc').1
          rw [hpostrc2] at this
          exact this
        · intro hc
          have hc' : c ∈ ElectionRaceRound.runningOf rc.2.post_state := hc
          rw [hpostrc2] at hc'
          exact hc'
      have hball25 : cur2.ballots = [] → cur25.ballots = [] := by
        intro h2
        rw [hc25]
        split
        · rw [(set_state_fold_post _ _ _).2.2.1, hrd2, p3]
          exact h2
        · rw [hrd2, p3]
          exact h2
      refine ⟨?_, ?_, ?_, ?_⟩
      · simp only [ElectionRace.updLast]
        rw [(ite_race_fields _ _ _).1, hrcw, List.length_append]
        have hlen := tie_resolution_ok_le _ scores r2.rounds.dropLast sel crw htr
        omega
      · intro hfin
        by_cases hc0 : cur3.running_post.length = 0
        · refine ⟨cur3, ?_, List.length_eq_zero.mp hc0⟩
          simp only [ElectionRace.updLast]
          exact List.getLast?_concat _
        · exfalso
          have hst2 : r2.state = RaceState.COMPLETE := by
            rw [← hrcst]
            simp only [ElectionRace.updLast] at hfin
            rw [if_neg hc0] at hfin
            exact hfin
          obtain ⟨out, hok, hcase⟩ := hComplOk hst2
          rw [htr] at hok
          injection hok with hout
          rcases hcase with hout0 | houtr
          · exact hcrw (hout.trans hout0)
          · have hcrwrun : crw = running := hout.trans houtr
            apply hc0
            rw [List.length_eq_zero, List.eq_nil_iff_forall_not_mem]
            intro c hc
            have hcf := hpost25 c hc
            obtain ⟨hcp, hcn⟩ := List.mem_filter.mp hcf
            have hcr : c ∈ running := by
              rw [hrun]
              exact hsub c hcp
            rw [← hcrwrun] at hcr
            simp only [decide_not, Bool.not_eq_true', decide_eq_false_iff_not] at hcn
            exact hcn hcr
      · intro hv
        obtain ⟨h1, h2, h3⟩ := hBall hv
        constructor
        · simp only [ElectionRace.updLast]
          rw [(ite_race_fields _ _ _).2.2, hrc]
          rw [(commit_fold_empty _ _ crw (r2, cur2) h2).1]
          exact h1
        · intro rd hrd
          simp only [ElectionRace.updLast] at hrd
          rw [(ite_race_fields _ _ _).2.1, hrcrounds] at hrd
          rcases List.mem_append.mp hrd with h | h
          · exact h3 rd h
          · rw [List.mem_singleton.mp h]
            show cur25.ballots = []
            exact hball25 h2
      · intro rd hrd c hc
        simp only [ElectionRace.updLast] at hrd
        rw [(ite_race_fields _ _ _).2.1, hrcrounds] at hrd
        rcases List.mem_append.mp hrd with h | h
        · exact hPrev rd h c hc
        · have hrdval := List.mem_singleton.mp h
          subst hrdval
          have hcf := hpost25 c hc
          obtain ⟨hcp, _⟩ := List.mem_filter.mp hcf
          show c ∈ ElectionRaceRound.runningOf cur3.pre_state
          have hpre3 : cur3.pre_state = cur2.pre_state := hpre25
          rw [hpre3]
          exact hsub c hcp

/-- The reachability invariant behind C1: the winner list fits the seat
count; a COMPLETE race has a latest round with nobody left RUNNING; a race
with no registered voters has an empty transfer queue and ballotless rounds;
and each round's post-RUNNING group sits inside its pre-RUNNING group. -/
def RaceInv (r : ElectionRace) : Prop :=
  r.winners.length ≤ r.max_winners ∧
  (r.state = RaceState.COMPLETE →
    ∃ rd, r.rounds.getLast? = some rd ∧ rd.running_post = []) ∧
  (r.voters = [] → r.transfer_voters = [] ∧ ∀ rd ∈ r.rounds, rd.ballots = []) ∧
  (∀ rd ∈ r.rounds, ∀ c, c ∈ rd.running_post → c ∈ rd.running_pre)

theorem raceInv_init (mw : Nat) (alg : QuotaAlg) : RaceInv (ElectionRace.init mw alg) := by
  refine ⟨Nat.zero_le _, ?_, ?_, ?_⟩
  · intro h
    exact RaceState.noConfusion h
  · intro _
    exact ⟨rfl, fun rd hrd => absurd hrd (List.not_mem_nil rd)⟩
  · intro rd hrd
    exact absurd hrd (List.not_mem_nil rd)

theorem raceInv_add_candidate (r : ElectionRace) (c : Cand) (h : RaceInv r) :
    RaceInv (r.add_candidate c).1 := by
  unfold ElectionRace.add_candidate
  split
  · exact h
  · split
    · exact h
    · exact h

theorem raceInv_add_voter (r : ElectionRace) (v : Nat) (prefs : List Cand)
    (h : RaceInv r) : RaceInv (r.add_voter v prefs).1 := by
  unfold ElectionRace.add_voter
  split
  · exact h
  · split
    · exact h
    · obtain ⟨h1, h2, h3, h4⟩ := h
      refine ⟨h1, h2, ?_, h4⟩
      intro hv
      exact absurd hv (by simp)

/-- `tsc_inv` repackaged as preservation of the full invariant, using that
selection and commit never rewrite the race configuration. -/
theorem tsc_raceInv (r2 : ElectionRace) (cur2 : ElectionRaceRound)
    (scores : Cand → ℚ) (running : List Cand)
    (hW : r2.winners.length ≤ r2.max_winners)
    (hrun : running = cur2.running_pre)
    (hsub : ∀ c, c ∈ cur2.running_post → c ∈ cur2.running_pre)
    (hCmpl : r2.state = RaceState.COMPLETE → running = [] ∨ ∀ c, scores c = 0)
    (hBall : r2.voters = [] → r2.transfer_voters = [] ∧ cur2.ballots = []
      ∧ ∀ rd ∈ r2.rounds.dropLast, rd.ballots = [])
    (hPrev : ∀ rd ∈ r2.rounds.dropLast, ∀ c, c ∈ rd.running_post → c ∈ rd.running_pre) :
    RaceInv (ElectionRace.tabulation_select_commit r2 cur2 scores running).1 := by
  obtain ⟨p1, p2, p3, p4⟩ := tsc_inv r2 cur2 scores running hW hrun hsub hCmpl hBall hPrev
  obtain ⟨c1, c2, c3, c4, c5⟩ := tabulation_select_commit_config r2 cur2 scores running
  exact ⟨by rw [c1]; exact p1, p2, fun hv => p3 (by rw [← c5]; exact hv), p4⟩

/-- Invariant preservation through the tabulation step, covering all four
combinations of the two terminal short-circuit checks. -/
theorem run_tabulation_inv (r : ElectionRace) (cur : ElectionRaceRound)
    (h1 : r.winners.length ≤ r.max_winners)
    (h3 : r.voters = [] → r.transfer_voters = [] ∧ ∀ rd ∈ r.rounds, rd.ballots = [])
    (h4 : ∀ rd ∈ r.rounds, ∀ c, c ∈ rd.running_post → c ∈ rd.running_pre)
    (hst : r.state = RaceState.TABULATING)
    (hlast : r.rounds.getLast? = some cur) :
    RaceInv (ElectionRace.run_tabulation r cur).1 := by
  have hcur_mem : cur ∈ r.rounds := List.mem_of_getLast?_eq_some hlast
  unfold ElectionRace.run_tabulation
  dsimp only
  by_cases hrz : cur.running_pre.length = 0
  · rw [if_pos hrz]
    by_cases hvz : r.voters.length = 0
    · rw [if_pos
        (show ({ r with state := RaceState.COMPLETE } : ElectionRace).voters.length = 0
          from hvz)]
      exact tsc_raceInv _ _ _ _ h1 rfl
        (fun c hc => h4 cur hcur_mem c hc)
        (fun _ => Or.inl (List.length_eq_zero.mp hrz))
        (fun hv => ⟨(h3 hv).1, (h3 hv).2 cur hcur_mem,
          fun rd hrd => (h3 hv).2 rd (List.mem_of_mem_dropLast hrd)⟩)
        (fun rd hrd c hc => h4 rd (List.mem_of_mem_dropLast hrd) c hc)
    · rw [if_neg
        (show ¬ ({ r with state := RaceState.COMPLETE } : ElectionRace).voters.length = 0
          from hvz)]
      exact tsc_raceInv _ _ _ _ h1 rfl
        (fun c hc => h4 cur hcur_mem c hc)
        (fun _ => Or.inl (List.length_eq_zero.mp hrz))
        (fun hv => ⟨(h3 hv).1, (h3 hv).2 cur hcur_mem,
          fun rd hrd => (h3 hv).2 rd (List.mem_of_mem_dropLast hrd)⟩)
        (fun rd hrd c hc => h4 rd (List.mem_of_mem_dropLast hrd) c hc)
  · rw [if_neg hrz]
    by_cases hvz : r.voters.length = 0
    · rw [if_pos hvz]
      have hvnil : r.voters = [] := List.length_eq_zero.mp hvz
      exact tsc_raceInv _ _ _ _ h1 rfl
        (fun c hc => h4 cur hcur_mem c hc)
        (fun _ => Or.inr (fun c => score_empty_ballots cur ((h3 hvnil).2 cur hcur_mem) c))
        (fun hv => ⟨(h3 hv).1, (h3 hv).2 cur hcur_mem,
          fun rd hrd => (h3 hv).2 rd (List.mem_of_mem_dropLast hrd)⟩)
        (fun rd hrd c hc => h4 rd (List.mem_of_mem_dropLast hrd) c hc)
    · rw [if_neg hvz]
      exact tsc_raceInv _ _ _ _ h1 rfl
        (fun c hc => h4 cur hcur_mem c hc)
        (fun hcon => (RaceState.noConfusion (hst.symm.trans hcon)))
        (fun hv => ⟨(h3 hv).1, (h3 hv).2 cur hcur_mem,
          fun rd hrd => (h3 hv).2 rd (List.mem_of_mem_dropLast hrd)⟩)
        (fun rd hrd c hc => h4 rd (List.mem_of_mem_dropLast hrd) c hc)

/-- Invariant preservation through one `run` call. -/
theorem raceInv_run (r : ElectionRace) (h : RaceInv r) : RaceInv (ElectionRace.run r).1 := by
  obtain ⟨h1, h2, h3, h4⟩ := h
  unfold ElectionRace.run
  dsimp only
  split
  · exact ⟨h1, h2, h3, h4⟩
  · next hcompl =>
    split
    · next hlast =>
      dsimp only
      refine ⟨h1, ?_, ?_, ?_⟩
      · intro hfin
        exact RaceState.noConfusion hfin
      · intro hv
        refine ⟨hv, ?_⟩
        intro rd hrd
        rcases List.mem_append.mp hrd with hL | hR
        · exact (h3 hv).2 rd hL
        · rw [List.mem_singleton.mp hR]
          exact (build_round_fields _).2.2.1
      · intro rd hrd c hc
        rcases List.mem_append.mp hrd with hL | hR
        · exact h4 rd hL c hc
        · have hrdeq := List.mem_singleton.mp hR
          subst hrdeq
          revert hc
          unfold ElectionRaceRound.running_pre ElectionRaceRound.running_post
          rw [(build_round_fields _).1, (build_round_fields _).2.1]
          exact id
    · next cur hlast =>
      have hcur_mem : cur ∈ r.rounds := List.mem_of_getLast?_eq_some hlast
      split
      · next hcur =>
        dsimp only
        unfold ElectionRace.create_new_round
        dsimp only
        refine ⟨h1, ?_, ?_, ?_⟩
        · intro hfin
          exact RaceState.noConfusion hfin
        · intro hv
          have hcb : cur.ballots = [] := (h3 hv).2 cur hcur_mem
          refine ⟨(h3 hv).1, ?_⟩
          intro rd hrd
          rcases List.mem_append.mp hrd with hL | hR
          · exact (h3 hv).2 rd hL
          · rw [List.mem_singleton.mp hR]
            have hm2n : ∀ l : List (Option Cand × Ballot),
                l.map Prod.snd = [] → l = [] := fun l hl => List.map_eq_nil_iff.mp hl
            refine hm2n _ ?_
            rw [(add_ballot_fold_fields _ _).1, (migrate_fold_fields _ _ _).1,
              (add_candidate_fold_fields _ _ _).2.2.1,
              get_candidate_ballots_nil cur hcb,
              List.flatMap_eq_nil_iff.mpr
                (fun c _ => get_candidate_ballots_nil cur hcb (some c))]
            simp [ElectionRaceRound.empty]
        · intro rd hrd c hc
          rcases List.mem_append.mp hrd with hL | hR
          · exact h4 rd hL c hc
          · have hrdeq := List.mem_singleton.mp hR
            subst hrdeq
            revert hc
            unfold ElectionRaceRound.running_pre ElectionRaceRound.running_post
            rw [(add_ballot_fold_fields _ _).2.1, (migrate_fold_fields _ _ _).2.1,
              (add_candidate_fold_fields _ _ _).1,
              (add_ballot_fold_fields _ _).2.2.1, (migrate_fold_fields _ _ _).2.2.1,
              (add_candidate_fold_fields _ _ _).2.1]
            exact id
      · next hcur =>
        split
        · next v rest htv =>
          dsimp only
          refine ⟨h1, ?_, ?_, ?_⟩
          · intro hfin
            exact RaceState.noConfusion hfin
          · intro hv
            exact absurd ((h3 hv).1.symm.trans htv) (fun hcon => List.noConfusion hcon)
          · intro rd hrd c hc
            rcases List.mem_append.mp hrd with hL | hR
            · exact h4 rd (List.mem_of_mem_dropLast hL) c hc
            · have hrdeq := List.mem_singleton.mp hR
              subst hrdeq
              exact h4 cur hcur_mem c hc
        · next htv =>
          exact run_tabulation_inv _ cur h1 h3 h4 rfl hlast

theorem raceInv_applyOps (ops : List Op) : ∀ r, RaceInv r → RaceInv (applyOps r ops) := by
  induction ops with
  | nil => intro r h; exact h
  | cons op t ih =>
    intro r h
    rw [applyOps_cons]
    apply ih
    cases op with
    | add_candidate c => exact raceInv_add_candidate r c h
    | add_voter v prefs => exact raceInv_add_voter r v prefs h
    | run => exact raceInv_run r h

/-- C1: after any sequence of `add_candidate`, `add_voter` and `run` calls on
a race, the winner list never exceeds the seat count, and a race that has
reached COMPLETE either filled every seat or ran out of RUNNING candidates
(its latest round has nobody left RUNNING). -/
theorem winners_within_capacity (mw : Nat) (alg : QuotaAlg) (ops : List Op) :
    (applyOps (ElectionRace.init mw alg) ops).winners.length
      ≤ (applyOps (ElectionRace.init mw alg) ops).max_winners ∧
    ((applyOps (ElectionRace.init mw alg) ops).state = RaceState.COMPLETE →
      (applyOps (ElectionRace.init mw alg) ops).winners.length
          = (applyOps (ElectionRace.init mw alg) ops).max_winners ∨
      ∃ rd, (applyOps (ElectionRace.init mw alg) ops).rounds.getLast? = some rd ∧
        rd.running_post = []) := by
  obtain ⟨p1, p2, _, _⟩ :=
    raceInv_applyOps ops (ElectionRace.init mw alg) (raceInv_init mw alg)
  exact ⟨p1, fun hc => Or.inr (p2 hc)⟩
